import Mathlib

/-!
Verification of the advanced-etl-pipeline repository: a shallow embedding of
the pipeline orchestrator (`src/src/pipeline.py`), the stage monitor
(`src/src/utils/monitoring.py`), and the transformation/aggregation engine
(`src/transform/clean.py`, `src/transform/join.py`,
`src/src/transformers/data_transformer.py`), together with theorems settling
the stated properties of those components.

Conventions of the embedding:
* pandas DataFrames are modelled columnar: a list of named columns over a
  shared row count; cell scalars are exact rationals plus the IEEE-754
  specials (positive/negative infinity, NaN).  `PVal.nan` models every
  missing-value marker (`NaN`, `None`, `pd.NA`), since pandas treats them
  uniformly in the operations under study.
* Python exceptions are modelled with `Except String`; a function that can
  raise returns `Except String DataFrame`.
* Wall-clock quantities (timestamps, durations) are not modelled; no claim
  refers to them.
-/

namespace ETL

/-- A pandas cell scalar: a finite number, an IEEE infinity, the missing
marker (NaN / None / NA, all modelled by `nan`), a string, or a boolean. -/
inductive PVal where
  | num (q : ℚ)
  | posInf
  | negInf
  | nan
  | strv (s : String)
  | boolv (b : Bool)
deriving DecidableEq

/-- `pd.isna` on a cell: only the missing marker is NA. -/
def PVal.isNA : PVal → Bool
  | .nan => true
  | _ => false

/-- IEEE-style numeric value used for pandas arithmetic: finite rational,
infinities, or NaN. -/
inductive PF where
  | fin (q : ℚ)
  | pinf
  | ninf
  | nan
deriving DecidableEq

/-- Numeric view of a cell.  Booleans coerce to 0/1 as in pandas; strings
have no numeric value (they do not occur in numeric-dtype columns, which is
the only place the engine does arithmetic). -/
def PVal.toPF : PVal → PF
  | .num q => .fin q
  | .posInf => .pinf
  | .negInf => .ninf
  | .nan => .nan
  | .boolv b => .fin (if b then 1 else 0)
  | .strv _ => .nan

/-- Back from the numeric domain to a cell. -/
def PF.toPVal : PF → PVal
  | .fin q => .num q
  | .pinf => .posInf
  | .ninf => .negInf
  | .nan => .nan

/-- IEEE addition: NaN is absorbing, opposite infinities give NaN. -/
def PF.add : PF → PF → PF
  | .nan, _ => .nan
  | _, .nan => .nan
  | .fin a, .fin b => .fin (a + b)
  | .pinf, .ninf => .nan
  | .ninf, .pinf => .nan
  | .pinf, _ => .pinf
  | _, .pinf => .pinf
  | .ninf, _ => .ninf
  | _, .ninf => .ninf

/-- IEEE subtraction. -/
def PF.sub : PF → PF → PF
  | .nan, _ => .nan
  | _, .nan => .nan
  | .fin a, .fin b => .fin (a - b)
  | .pinf, .pinf => .nan
  | .ninf, .ninf => .nan
  | .pinf, _ => .pinf
  | _, .pinf => .ninf
  | .ninf, _ => .ninf
  | _, .ninf => .pinf

/-- IEEE division as produced by pandas element-wise division: division by
zero of a nonzero numerator gives a signed infinity, `0 / 0` gives NaN. -/
def PF.div : PF → PF → PF
  | .nan, _ => .nan
  | _, .nan => .nan
  | .fin a, .fin b =>
      if b = 0 then
        if a = 0 then .nan else if a > 0 then .pinf else .ninf
      else .fin (a / b)
  | .fin _, .pinf => .fin 0
  | .fin _, .ninf => .fin 0
  | .pinf, .fin b => if b < 0 then .ninf else .pinf
  | .ninf, .fin b => if b < 0 then .pinf else .ninf
  | .pinf, _ => .nan
  | .ninf, _ => .nan

/-- Multiplication by the (positive) constant 100, as in `(x / total) * 100`. -/
def PF.mul100 : PF → PF
  | .fin q => .fin (100 * q)
  | .pinf => .pinf
  | .ninf => .ninf
  | .nan => .nan

/-- Scaling by a finite rational constant (used for `threshold * iqr`). -/
def PF.scale (c : ℚ) : PF → PF
  | .fin q => .fin (c * q)
  | .pinf => if c > 0 then .pinf else if c < 0 then .ninf else .nan
  | .ninf => if c > 0 then .ninf else if c < 0 then .pinf else .nan
  | .nan => .nan

/-- Strict order on IEEE values; any comparison involving NaN is false. -/
def PF.ltb : PF → PF → Bool
  | .nan, _ => false
  | _, .nan => false
  | .fin a, .fin b => a < b
  | .fin _, .pinf => true
  | .ninf, .fin _ => true
  | .ninf, .pinf => true
  | _, _ => false

/-- Non-strict order on IEEE values; any comparison involving NaN is false. -/
def PF.leb : PF → PF → Bool
  | .nan, _ => false
  | _, .nan => false
  | .fin a, .fin b => a ≤ b
  | .fin _, .pinf => true
  | .ninf, _ => true
  | .pinf, .pinf => true
  | _, _ => false

/-- pandas `Series.sum()` (default `skipna=True`): NaN entries are skipped,
the empty sum is 0, and remaining entries are added with IEEE semantics. -/
def pfSum : List PF → PF
  | [] => .fin 0
  | x :: xs => if x = PF.nan then pfSum xs else PF.add x (pfSum xs)

/-- Count of non-NaN observations, as used by pandas reductions. -/
def pfCount (l : List PF) : Nat := (l.filter (· ≠ PF.nan)).length

/-- pandas `Series.mean()`: sum of observations over their count, NaN when
there are none. -/
def pfMean (l : List PF) : PF :=
  if pfCount l = 0 then .nan else (pfSum l).div (.fin (pfCount l))

/-- Minimum of non-NaN observations (pandas `min`, skipna); NaN when empty. -/
def pfMin (l : List PF) : PF :=
  match l.filter (· ≠ PF.nan) with
  | [] => .nan
  | x :: xs => xs.foldl (fun a b => if PF.leb a b then a else b) x

/-- Maximum of non-NaN observations (pandas `max`, skipna); NaN when empty. -/
def pfMax (l : List PF) : PF :=
  match l.filter (· ≠ PF.nan) with
  | [] => .nan
  | x :: xs => xs.foldl (fun a b => if PF.leb a b then b else a) x

/-- Is the value a finite number? -/
def PF.isFin : PF → Bool
  | .fin _ => true
  | _ => false

/-- Finite part of an IEEE value, defaulting to 0. -/
def PF.q : PF → ℚ
  | .fin a => a
  | _ => 0

/-- A DataFrame column: its label, its pandas dtype summarised by the
`is_numeric_dtype` predicate the code consults, and its cells. -/
structure Col where
  name : String
  isNumeric : Bool
  cells : List PVal
deriving DecidableEq

/-- A pandas DataFrame, columnar: a row count and an ordered list of columns.
Well-formedness (`DataFrame.wf`) requires every column to have `nrows`
cells. -/
structure DataFrame where
  nrows : Nat
  cols : List Col
deriving DecidableEq

/-- Every column carries exactly `nrows` cells. -/
def DataFrame.wf (df : DataFrame) : Bool :=
  df.cols.all (fun c => c.cells.length = df.nrows)

/-- The empty DataFrame `pd.DataFrame()`. -/
def DataFrame.emptyDF : DataFrame := { nrows := 0, cols := [] }

/-- pandas `df.empty`: true when either axis has length zero. -/
def DataFrame.isEmpty (df : DataFrame) : Bool :=
  (df.nrows == 0) || df.cols.isEmpty

/-- Column labels in order. -/
def DataFrame.colNames (df : DataFrame) : List String := df.cols.map Col.name

/-- Does a column with this label exist (`col in df.columns`)? -/
def DataFrame.hasCol (df : DataFrame) (name : String) : Bool :=
  (df.cols.find? (fun c => c.name = name)).isSome

/-- Cells of the (first) column with this label; `[]` when absent.  Lookups
in the engine are guarded by `hasCol` or raise before reaching this point. -/
def DataFrame.colCells (df : DataFrame) (name : String) : List PVal :=
  match df.cols.find? (fun c => c.name = name) with
  | some c => c.cells
  | none => []

/-- Dtype flag of the (first) column with this label
(`pd.api.types.is_numeric_dtype(df[col])`); booleans count as numeric in
pandas, which the flag of a boolean column records. -/
def DataFrame.colIsNumeric (df : DataFrame) (name : String) : Bool :=
  match df.cols.find? (fun c => c.name = name) with
  | some c => c.isNumeric
  | none => false

/-- Cell of column `name` at row `i` (NaN out of range; callers stay in
range). -/
def DataFrame.cellAt (df : DataFrame) (name : String) (i : Nat) : PVal :=
  (df.colCells name).getD i PVal.nan

/-- Would a freshly assigned column of these cells get a numeric dtype? -/
def numericCells (cells : List PVal) : Bool :=
  cells.all (fun v =>
    match v with
    | .strv _ => false
    | _ => true)

/-- `result[name] = cells`: replace the cells of an existing column of that
label in place, otherwise append a new column at the end (pandas column
assignment). -/
def DataFrame.assignCol (df : DataFrame) (name : String) (cells : List PVal) :
    DataFrame :=
  if df.hasCol name then
    { df with
      cols := df.cols.map (fun c =>
        if c.name = name then
          { c with isNumeric := numericCells cells, cells := cells }
        else c) }
  else
    { df with cols := df.cols ++ [⟨name, numericCells cells, cells⟩] }

/-- Keep the cells whose mask entry is true. -/
def maskKeep (mask : List Bool) (cells : List PVal) : List PVal :=
  (mask.zip cells).filterMap (fun p => if p.1 then some p.2 else none)

/-- `df[mask]` for a boolean mask of length `nrows`: keep the selected rows
of every column. -/
def DataFrame.filterRows (df : DataFrame) (mask : List Bool) : DataFrame :=
  { nrows := mask.count true,
    cols := df.cols.map (fun c => { c with cells := maskKeep mask c.cells }) }

/-- `pd.concat(frames, ignore_index=True)`: rows are stacked; the column set
is the union of labels in order of first appearance; a frame lacking a label
contributes NaN cells (which keep a numeric dtype). -/
def DataFrame.concatAll (dfs : List DataFrame) : DataFrame :=
  let names := (dfs.flatMap DataFrame.colNames).foldl
    (fun acc n => if n ∈ acc then acc else acc ++ [n]) []
  { nrows := (dfs.map DataFrame.nrows).sum,
    cols := names.map (fun n =>
      { name := n,
        isNumeric := (dfs.filter (·.hasCol n)).all (·.colIsNumeric n),
        cells := dfs.flatMap (fun d =>
          if d.hasCol n then d.colCells n else List.replicate d.nrows PVal.nan) }) }

/-! ## Stage monitor (`src/src/utils/monitoring.py`, class `PipelineMonitor`)

Timestamps and durations are wall-clock readings and are not modelled; every
other field of the metrics dictionary is.  The monitor value doubles as the
metrics object that `end_pipeline` returns. -/

/-- One entry of `metrics["stages"]` as appended by `end_stage`. -/
structure StageRecord where
  name : Option String
  recordsProcessed : Nat
  status : String
deriving DecidableEq

/-- One entry of `metrics["errors"]` as appended by `record_error`. -/
structure ErrorRecord where
  stage : Option String
  error : String
deriving DecidableEq

/-- The monitor state: the metrics dictionary plus the private
`_current_stage` marker and the `_stage_start_time is not None` flag. -/
structure Monitor where
  pipelineName : String
  status : String
  stages : List StageRecord
  errors : List ErrorRecord
  currentStage : Option String
  stageActive : Bool
deriving DecidableEq

/-- `PipelineMonitor.__init__`. -/
def Monitor.init (name : String) : Monitor :=
  { pipelineName := name, status := "not_started", stages := [], errors := [],
    currentStage := none, stageActive := false }

/-- `start_pipeline`. -/
def Monitor.startPipeline (m : Monitor) : Monitor :=
  { m with status := "running" }

/-- `end_pipeline(success)`; the returned metrics are the monitor state
itself. -/
def Monitor.endPipeline (m : Monitor) (success : Bool) : Monitor :=
  { m with status := if success then "success" else "failed" }

/-- `start_stage(name)`. -/
def Monitor.startStage (m : Monitor) (name : String) : Monitor :=
  { m with currentStage := some name, stageActive := true }

/-- `end_stage(records_processed, success)`: a no-op when no stage was
started, otherwise appends a stage record and clears the stage markers. -/
def Monitor.endStage (m : Monitor) (records : Nat) (success : Bool) : Monitor :=
  if m.stageActive then
    { m with
      stages := m.stages ++
        [⟨m.currentStage, records, if success then "success" else "failed"⟩],
      currentStage := none, stageActive := false }
  else m

/-- `record_error(error, stage)`: the recorded stage is the argument when
truthy (Python `stage or self._current_stage`), else the current stage. -/
def Monitor.recordError (m : Monitor) (msg : String) (stage : Option String) :
    Monitor :=
  let st := match stage with
    | some s => if s = "" then m.currentStage else some s
    | none => m.currentStage
  { m with errors := m.errors ++ [⟨st, msg⟩] }

/-! ## Pipeline orchestrator (`src/src/pipeline.py`, class `ETLPipeline`)

Adapters are modelled by what the orchestrator observes of them: each call
either returns a value or raises (`Except String`).  Keyword-argument
dictionaries are association lists. -/

/-- A `**kwargs` dictionary. -/
abbrev Params := List (String × PVal)

/-- A source adapter as seen across the `BaseExtractor` capability:
`connect`, `extract(**kwargs)`, `disconnect`, each possibly raising. -/
structure Extractor where
  connectR : Except String Bool
  extractR : Params → Except String DataFrame
  disconnectR : Except String Bool

/-- A sink adapter across the `BaseLoader` capability. -/
structure Loader where
  connectR : Except String Bool
  loadR : DataFrame → Params → Except String Bool
  disconnectR : Except String Bool

/-- `DataTransformer`: an ordered chain of transformation steps.  A step is a
function from a DataFrame to a DataFrame that may raise. -/
structure DataTransformer where
  transformations : List (DataFrame → Except String DataFrame)

/-- `DataTransformer.transform`: apply the steps in order; a failing step's
exception is re-raised (the `except` clause logs and re-raises). -/
def chainTransforms : List (DataFrame → Except String DataFrame) → DataFrame →
    Except String DataFrame
  | [], d => .ok d
  | f :: rest, d =>
      match f d with
      | .ok d2 => chainTransforms rest d2
      | .error e => .error e

/-- `DataTransformer.transform` (the `data.copy()` is immaterial here since
the embedding is pure). -/
def DataTransformer.transform (t : DataTransformer) (d : DataFrame) :
    Except String DataFrame :=
  chainTransforms t.transformations d

/-- The configured pipeline: registered extractors, the optional transformer,
registered loaders. -/
structure ETLPipeline where
  name : String
  extractors : List Extractor
  transformer : Option DataTransformer
  loaders : List Loader

/-- `kwargs = kwargs_list[i] if i < len(kwargs_list) else {}`: the parameter
object for the adapter at index `i`. -/
def kwargsAt (l : List Params) (i : Nat) : Params := l.getD i []

/-- `kwargs_list or [{}] * n`: `None` and the empty list (both falsy) are
replaced by a list of `n` empty dictionaries. -/
def defaultKwargs (passed : Option (List Params)) (n : Nat) : List Params :=
  match passed with
  | none => List.replicate n []
  | some l => if l.isEmpty then List.replicate n [] else l

/-- The extract loop of `run`: for each extractor in order, connect, extract
with its parameter object, disconnect; non-empty results are accumulated in
order.  The first exception aborts the loop. -/
def runExtractors : List Extractor → List Params → Nat →
    Except String (List DataFrame)
  | [], _, _ => .ok []
  | e :: rest, kw, i =>
      match e.connectR with
      | .error msg => .error msg
      | .ok _ =>
        match e.extractR (kwargsAt kw i) with
        | .error msg => .error msg
        | .ok d =>
          match e.disconnectR with
          | .error msg => .error msg
          | .ok _ =>
            match runExtractors rest kw (i + 1) with
            | .error msg => .error msg
            | .ok tail => .ok (if d.isEmpty then tail else d :: tail)

/-- The load loop of `run`: for each loader in order, connect, load the
post-transform data with its parameter object, disconnect. -/
def runLoaders : List Loader → List Params → DataFrame → Nat →
    Except String Unit
  | [], _, _, _ => .ok ()
  | l :: rest, kw, d, i =>
      match l.connectR with
      | .error msg => .error msg
      | .ok _ =>
        match l.loadR d (kwargsAt kw i) with
        | .error msg => .error msg
        | .ok _ => runLoaders rest kw d i.succ

/-- `pd.concat(all_data, ignore_index=True)` if any frame was accumulated,
else `pd.DataFrame()`. -/
def combineData (allData : List DataFrame) : DataFrame :=
  if allData.isEmpty then DataFrame.emptyDF else DataFrame.concatAll allData

/-- The transform phase of `run`: only when a transformer is set and the
combined data is non-empty is a "transform" stage started and the chain
applied; otherwise the data passes through with no stage record. -/
def transformPhase (t : Option DataTransformer) (combined : DataFrame)
    (m : Monitor) : Except (String × Monitor) (Monitor × DataFrame) :=
  match t with
  | some tr =>
      if combined.isEmpty then .ok (m, combined)
      else
        let m2 := m.startStage "transform"
        match tr.transform combined with
        | .ok d => .ok (m2.endStage d.nrows true, d)
        | .error e => .error (e, m2)
  | none => .ok (m, combined)

/-- The body of the `try` block of `run`; an exception carries the monitor
state at the point of the raise. -/
def runBody (p : ETLPipeline) (extractKw loadKw : Option (List Params))
    (m : Monitor) : Except (String × Monitor) Monitor :=
  let m1 := m.startStage "extract"
  let ek := defaultKwargs extractKw p.extractors.length
  match runExtractors p.extractors ek 0 with
  | .error e => .error (e, m1)
  | .ok allData =>
    let combined := combineData allData
    let m2 := m1.endStage combined.nrows true
    match transformPhase p.transformer combined m2 with
    | .error em => .error em
    | .ok (m3, transformed) =>
      let m4 := m3.startStage "load"
      let lk := defaultKwargs loadKw p.loaders.length
      match runLoaders p.loaders lk transformed 0 with
      | .error e => .error (e, m4)
      | .ok _ => .ok (m4.endStage transformed.nrows true)

/-- `ETLPipeline.run`: start the pipeline, execute the try block, on an
exception record a single error (with the currently active stage) and mark
failure; always return the metrics. -/
def ETLPipeline.run (p : ETLPipeline)
    (extractKw loadKw : Option (List Params)) : Monitor :=
  let m := (Monitor.init p.name).startPipeline
  match runBody p extractKw loadKw m with
  | .ok m2 => m2.endPipeline true
  | .error (e, m2) => ((m2.recordError e none).endPipeline false)

/-! ## Column-name standardization (`src/transform/clean.py`,
`standardize_column_names` / `to_snake_case`)

The regex pipeline of `to_snake_case` is modelled step by step on character
lists.  The character classes `[a-z]`, `[A-Z]` are the ASCII ranges the
source regexes name; `\s` is modelled by the ASCII whitespace characters
(Unicode whitespace beyond ASCII is out of scope, as are non-ASCII case
mappings of `str.lower`). -/

/-- The characters `re.sub(r"[\s\-\.]+", "_", name)` replaces: ASCII
whitespace, hyphen, dot. -/
def sepChars : List Char := [' ', '\t', '\n', '\r', Char.ofNat 11, Char.ofNat 12, '-', '.']

/-- Is the character a separator? -/
def isSep (c : Char) : Bool := decide (c ∈ sepChars)

/-- `re.sub(r"[\s\-\.]+", "_", name)`: each maximal run of separators becomes
one underscore.  The flag records whether the previous character belonged to
a run already replaced. -/
def replaceSepsAux : Bool → List Char → List Char
  | _, [] => []
  | prevSep, c :: rest =>
      if isSep c then
        if prevSep then replaceSepsAux true rest
        else '_' :: replaceSepsAux true rest
      else c :: replaceSepsAux false rest

/-- Separator replacement from the start of the string. -/
def replaceSeps (l : List Char) : List Char := replaceSepsAux false l

/-- The ASCII lower-casing map of `str.lower` restricted to `A`–`Z`. -/
def upperPairs : List (Char × Char) :=
  [('A', 'a'), ('B', 'b'), ('C', 'c'), ('D', 'd'), ('E', 'e'), ('F', 'f'),
   ('G', 'g'), ('H', 'h'), ('I', 'i'), ('J', 'j'), ('K', 'k'), ('L', 'l'),
   ('M', 'm'), ('N', 'n'), ('O', 'o'), ('P', 'p'), ('Q', 'q'), ('R', 'r'),
   ('S', 's'), ('T', 't'), ('U', 'u'), ('V', 'v'), ('W', 'w'), ('X', 'x'),
   ('Y', 'y'), ('Z', 'z')]

/-- Look a character up in a replacement table; identity when absent. -/
def findRepl : List (Char × Char) → Char → Char
  | [], c => c
  | p :: ps, c => if c = p.1 then p.2 else findRepl ps c

/-- The upper-case ASCII letters (regex class `[A-Z]`). -/
def upperChars : List Char := upperPairs.map Prod.fst

/-- The lower-case ASCII letters (regex class `[a-z]`). -/
def lowerChars : List Char := upperPairs.map Prod.snd

/-- Membership in `[A-Z]`. -/
def isUpperAZ (c : Char) : Bool := decide (c ∈ upperChars)

/-- Membership in `[a-z]`. -/
def isLowerAZ (c : Char) : Bool := decide (c ∈ lowerChars)

/-- One character of `str.lower`. -/
def asciiLower (c : Char) : Char := findRepl upperPairs c

/-- `re.sub(r"([a-z])([A-Z])", r"\1_\2", name)`: insert an underscore between
a lower-case letter and the upper-case letter following it; matches are
non-overlapping, scanning resumes after a match. -/
def insertU : List Char → List Char
  | [] => []
  | [c] => [c]
  | a :: b :: rest =>
      if isLowerAZ a && isUpperAZ b then a :: '_' :: b :: insertU rest
      else a :: insertU (b :: rest)

/-- `name.lower()` (ASCII). -/
def lowerize (l : List Char) : List Char := l.map asciiLower

/-- `re.sub(r"_+", "_", name)`: collapse each run of underscores to one. -/
def collapseAux : Bool → List Char → List Char
  | _, [] => []
  | prevU, c :: rest =>
      if c = '_' then
        if prevU then collapseAux true rest
        else '_' :: collapseAux true rest
      else c :: collapseAux false rest

/-- Underscore collapsing from the start of the string. -/
def collapseU (l : List Char) : List Char := collapseAux false l

/-- Drop leading underscores (half of `name.strip("_")`). -/
def stripLead (l : List Char) : List Char := l.dropWhile (fun c => c == '_')

/-- Drop trailing underscores (the other half of `name.strip("_")`). -/
def stripTrail (l : List Char) : List Char :=
  (l.reverse.dropWhile (fun c => c == '_')).reverse

/-- `to_snake_case`: separators to underscores, camel-case boundary
underscores, lower-case, collapse runs, strip ends. -/
def toSnakeCase (s : String) : String :=
  String.mk (stripTrail (stripLead (collapseU (lowerize (insertU (replaceSeps s.data))))))

/-- `standardize_column_names`: rename every column (cells untouched). -/
def standardize_column_names (df : DataFrame) : DataFrame :=
  { df with cols := df.cols.map (fun c => { c with name := toSnakeCase c.name }) }

/-! ## Missing-value filling (`src/transform/clean.py`, `fill_missing_values`) -/

/-- `series.isna().sum()`. -/
def countNA (cells : List PVal) : Nat := cells.countP (fun c => c.isNA)

/-- `series.fillna(v)` on one cell: only NA cells are replaced. -/
def fillCellWith (v : PVal) (c : PVal) : PVal := if c.isNA then v else c

/-- First-occurrence deduplication. -/
def dedupKeepFirst {α : Type} [DecidableEq α] (l : List α) : List α :=
  l.foldl (fun acc x => if x ∈ acc then acc else acc ++ [x]) []

/-- Order used to pick `Series.mode().iloc[0]`: pandas sorts the modal
values, so the least one is taken; numbers order numerically, strings
lexicographically (a homogeneous column never mixes the two). -/
def pvalLeb (a b : PVal) : Bool :=
  match a, b with
  | .strv x, .strv y => decide (x ≤ y)
  | .strv _, _ => false
  | _, .strv _ => true
  | x, y => PF.leb x.toPF y.toPF

/-- `Series.mode().iloc[0]` when the mode is non-empty: the least among the
most frequent non-NA values. -/
def modeFirst (cells : List PVal) : Option PVal :=
  let obs := cells.filter (fun c => c.isNA = false)
  match dedupKeepFirst obs with
  | [] => none
  | x :: xs =>
      some (xs.foldl (fun best v =>
        if obs.count v > obs.count best ∨
           (obs.count v = obs.count best ∧ pvalLeb v best) then v else best) x)

/-- Insertion into a `PF.leb`-sorted list. -/
def insertPF (x : PF) : List PF → List PF
  | [] => [x]
  | y :: ys => if PF.leb x y then x :: y :: ys else y :: insertPF x ys

/-- Sort IEEE values (NaN-free input) ascending. -/
def sortPF (l : List PF) : List PF := l.foldr insertPF []

/-- `Series.quantile(p)` with the default linear interpolation: over the
sorted non-NaN observations, the value at fractional position `p * (n - 1)`;
NaN when there are no observations.  At an integral position the observation
itself is returned without interpolation. -/
def pfQuantile (l : List PF) (p : ℚ) : PF :=
  let s := sortPF (l.filter (· ≠ PF.nan))
  match s with
  | [] => .nan
  | _ =>
    let pos : ℚ := p * ((s.length : ℚ) - 1)
    let i : Nat := pos.floor.toNat
    let frac : ℚ := pos - (i : ℚ)
    let vi := s.getD i .nan
    if frac = 0 then vi
    else PF.add vi (PF.scale frac (PF.sub (s.getD (i + 1) vi) vi))

/-- Forward fill: an NA cell takes the last non-NA value seen before it (and
stays NA when none exists). -/
def ffillAux : Option PVal → List PVal → List PVal
  | _, [] => []
  | last, c :: rest =>
      if c.isNA then
        (match last with | some v => v | none => c) :: ffillAux last rest
      else c :: ffillAux (some c) rest

/-- Replace the cells of every column carrying this label, other columns
untouched.  The dtype flag is kept: no claim reads the dtype of a filled
column, and fills in the engine are dtype-preserving in the common path. -/
def DataFrame.setColCells (df : DataFrame) (name : String) (cells : List PVal) :
    DataFrame :=
  { df with cols := df.cols.map (fun c =>
      if c.name = name then { c with cells := cells } else c) }

/-- `target_columns = columns if columns else result.columns`: `None` and the
empty list are falsy and select all columns. -/
def fillTargets (columns : Option (List String)) (df : DataFrame) : List String :=
  match columns with
  | some l => if l.isEmpty then df.colNames else l
  | none => df.colNames

/-- One iteration of the filling loop: a missing column and a column with no
missing values are skipped; otherwise the branch selected by the strategy
string fills the NA cells (an unknown strategy leaves the column as is, the
`elif` chain has no final `else`).  Strategy `constant` with no fill value
raises (`fillna(None)`). -/
def fillColumn (strategy : String) (fillValue : Option PVal) (df : DataFrame)
    (c : String) : Except String DataFrame :=
  if ¬df.hasCol c then .ok df
  else
    let cells := df.colCells c
    if countNA cells = 0 then .ok df
    else if strategy = "auto" then
      if df.colIsNumeric c then
        .ok (df.setColCells c (cells.map
          (fillCellWith (pfQuantile (cells.map PVal.toPF) (1/2)).toPVal)))
      else
        match modeFirst cells with
        | some m => .ok (df.setColCells c (cells.map (fillCellWith m)))
        | none => .ok df
    else if strategy = "mean" then
      if df.colIsNumeric c then
        .ok (df.setColCells c (cells.map
          (fillCellWith (pfMean (cells.map PVal.toPF)).toPVal)))
      else .ok df
    else if strategy = "median" then
      if df.colIsNumeric c then
        .ok (df.setColCells c (cells.map
          (fillCellWith (pfQuantile (cells.map PVal.toPF) (1/2)).toPVal)))
      else .ok df
    else if strategy = "mode" then
      match modeFirst cells with
      | some m => .ok (df.setColCells c (cells.map (fillCellWith m)))
      | none => .ok df
    else if strategy = "constant" then
      match fillValue with
      | some v => .ok (df.setColCells c (cells.map (fillCellWith v)))
      | none => .error "Must specify a fill value or method"
    else if strategy = "ffill" then
      .ok (df.setColCells c (ffillAux none cells))
    else if strategy = "bfill" then
      .ok (df.setColCells c ((ffillAux none cells.reverse).reverse))
    else .ok df

/-- The per-column loop of `fill_missing_values`. -/
def fillLoop (strategy : String) (fillValue : Option PVal) :
    DataFrame → List String → Except String DataFrame
  | df, [] => .ok df
  | df, c :: rest =>
      match fillColumn strategy fillValue df c with
      | .ok df2 => fillLoop strategy fillValue df2 rest
      | .error e => .error e

/-- `fill_missing_values(df, strategy, fill_value, columns)`. -/
def fill_missing_values (df : DataFrame) (strategy : String)
    (fillValue : Option PVal) (columns : Option (List String)) :
    Except String DataFrame :=
  fillLoop strategy fillValue df (fillTargets columns df)

/-! ## Outlier filtering (`src/transform/clean.py`, `filter_outliers`) -/

/-- The IQR mask: `(col >= q1 - k * iqr) & (col <= q3 + k * iqr)`; NaN cells
compare false on both sides. -/
def iqrMask (cells : List PVal) (threshold : ℚ) : List Bool :=
  let vals := cells.map PVal.toPF
  let q1 := pfQuantile vals (1/4)
  let q3 := pfQuantile vals (3/4)
  let iqr := PF.sub q3 q1
  let lower := PF.sub q1 (PF.scale threshold iqr)
  let upper := PF.add q3 (PF.scale threshold iqr)
  vals.map (fun v => PF.leb lower v && PF.leb v upper)

/-- The z-score mask: `abs(col - mean) / std < k` with the sample standard
deviation (`ddof=1`).  The std is NaN with fewer than two observations or
with an infinite observation (`inf - inf` poisons the variance), and a NaN or
zero std makes every comparison false; otherwise, since `s > 0`, the
comparison `|x - m| / s < k` holds exactly when `k > 0` and
`(x - m)^2 < k^2 * s^2`, which eliminates the square root. -/
def zscoreMask (cells : List PVal) (threshold : ℚ) : List Bool :=
  let vals := cells.map PVal.toPF
  let obs := vals.filter (· ≠ PF.nan)
  if obs.length < 2 ∨ ¬(obs.all PF.isFin) then vals.map (fun _ => false)
  else
    let n : ℚ := obs.length
    let m : ℚ := (obs.map PF.q).sum / n
    let v : ℚ := ((obs.map PF.q).map (fun x => (x - m) ^ 2)).sum / (n - 1)
    vals.map (fun x =>
      match x with
      | .fin a => decide (0 < v ∧ 0 < threshold ∧ (a - m) ^ 2 < threshold ^ 2 * v)
      | _ => false)

/-- `filter_outliers(df, column, method, threshold)`: raises on a missing or
non-numeric column and on an unknown method; otherwise keeps the rows inside
the computed bound. -/
def filter_outliers (df : DataFrame) (column : String) (method : String)
    (threshold : ℚ) : Except String DataFrame :=
  if ¬df.hasCol column then
    .error ("Column " ++ column ++ " not found in DataFrame")
  else if ¬df.colIsNumeric column then
    .error ("Column " ++ column ++ " is not numeric")
  else if method = "iqr" then
    .ok (df.filterRows (iqrMask (df.colCells column) threshold))
  else if method = "zscore" then
    .ok (df.filterRows (zscoreMask (df.colCells column) threshold))
  else .error ("Unknown outlier detection method: " ++ method)

/-! ## Grouped aggregation (`src/transform/join.py`, `aggregate_data`;
`src/src/transformers/data_transformer.py`, `DataTransformer.aggregate`) -/

/-- The named reduction functions the aggregation dictionaries of the
repository use. -/
inductive AggFn where
  | sum
  | mean
  | amin
  | amax
  | count
  | std
deriving DecidableEq

/-- The pandas name of a reduction, used when flattening multi-level
columns. -/
def AggFn.pandasName : AggFn → String
  | .sum => "sum"
  | .mean => "mean"
  | .amin => "min"
  | .amax => "max"
  | .count => "count"
  | .std => "std"

/-- Sample variance over the finite observations (`ddof=1`); NaN with fewer
than two observations or any infinite one.  The source's `std` is the square
root of this value; an exact square root leaves ℚ, so the embedding keeps
the variance — no claim reads the numeric contents of a `std` column. -/
def sampleVarModel (l : List PF) : PF :=
  let obs := l.filter (· ≠ PF.nan)
  if obs.length < 2 then .nan
  else if ¬(obs.all PF.isFin) then .nan
  else
    let n : ℚ := obs.length
    let m : ℚ := (obs.map PF.q).sum / n
    .fin (((obs.map PF.q).map (fun x => (x - m) ^ 2)).sum / (n - 1))

/-- Apply a named reduction to the cells of one group (pandas skipna
semantics throughout). -/
def applyAgg : AggFn → List PF → PF
  | .sum, l => pfSum l
  | .mean, l => pfMean l
  | .amin, l => pfMin l
  | .amax, l => pfMax l
  | .count, l => .fin (pfCount l)
  | .std, l => sampleVarModel l

/-- An aggregation-dictionary value: one function name or a list of them. -/
inductive AggOne where
  | single (f : AggFn)
  | multi (fs : List AggFn)

/-- The grouping-key tuple of row `i`. -/
def keyTupleAt (df : DataFrame) (keys : List String) (i : Nat) : List PVal :=
  keys.map (fun k => df.cellAt k i)

/-- The grouping-key tuples of all rows, in row order. -/
def allKeyTuples (df : DataFrame) (keys : List String) : List (List PVal) :=
  (List.range df.nrows).map (keyTupleAt df keys)

/-- The key tuples pandas groups on: `groupby` (default `dropna=True`) drops
every row whose key tuple contains a missing value. -/
def validKeyTuples (df : DataFrame) (keys : List String) : List (List PVal) :=
  (allKeyTuples df keys).filter (fun t => ¬t.any PVal.isNA)

/-- The distinct grouped key tuples.  pandas sorts the groups; the embedding
keeps first-appearance order, which has the same length and membership — the
claims read only the row count. -/
def groupKeys (df : DataFrame) (keys : List String) : List (List PVal) :=
  dedupKeepFirst (validKeyTuples df keys)

/-- Indices of the rows belonging to a group. -/
def groupRowIdx (df : DataFrame) (keys : List String) (t : List PVal) :
    List Nat :=
  (List.range df.nrows).filter (fun i => keyTupleAt df keys i = t)

/-- Does any column map to a list of functions (which makes the aggregated
columns a MultiIndex that the source then flattens)? -/
def aggHasMulti (aggs : List (String × AggOne)) : Bool :=
  aggs.any (fun p => match p.2 with | .multi _ => true | _ => false)

/-- The (column, function) pairs in dictionary order. -/
def aggPairs (aggs : List (String × AggOne)) : List (String × AggFn) :=
  aggs.flatMap (fun p =>
    match p.2 with
    | .single f => [(p.1, f)]
    | .multi fs => fs.map (fun f => (p.1, f)))

/-- The output label of an aggregated column: with a MultiIndex present the
levels are joined with an underscore, otherwise the original label is
kept. -/
def aggOutName (multi : Bool) (col : String) (f : AggFn) : String :=
  if multi then col ++ "_" ++ f.pandasName else col

/-- `aggregate_data(df, group_by, aggregations, reset_index)`: group by the
key columns, apply the aggregation dictionary, flatten multi-level column
names.  `groupby` raises on an empty key list and on a missing column; `agg`
raises on a missing aggregation column.  With `reset_index=False` the keys
stay in the index rather than in columns; the row count is identical either
way, and the embedding always materialises the keys as columns. -/
def aggregate_data (df : DataFrame) (groupBy : List String)
    (aggs : List (String × AggOne)) (resetIndex : Bool) :
    Except String DataFrame :=
  if groupBy.isEmpty then .error "No group keys passed"
  else if ¬groupBy.all df.hasCol then .error "KeyError"
  else if ¬(aggs.map Prod.fst).all df.hasCol then .error "KeyError"
  else
    let gs := groupKeys df groupBy
    let multi := aggHasMulti aggs
    .ok { nrows := gs.length,
          cols :=
            (List.range groupBy.length).map (fun j =>
              { name := groupBy.getD j "",
                isNumeric := df.colIsNumeric (groupBy.getD j ""),
                cells := gs.map (fun t => t.getD j PVal.nan) })
            ++ (aggPairs aggs).map (fun p =>
              { name := aggOutName multi p.1 p.2,
                isNumeric := true,
                cells := gs.map (fun t =>
                  (applyAgg p.2 ((groupRowIdx df groupBy t).map
                    (fun i => (df.cellAt p.1 i).toPF))).toPVal) }) }

/-- `DataTransformer.aggregate(data, group_by, aggregations)`: the same
groupby–agg–reset_index sequence with single-function values only. -/
def DataTransformer.aggregate (df : DataFrame) (groupBy : List String)
    (aggs : List (String × AggFn)) : Except String DataFrame :=
  aggregate_data df groupBy (aggs.map (fun p => (p.1, AggOne.single p.2))) true

/-! ## Rolling windows (`src/transform/join.py`, `window_aggregate`) -/

/-- The positions `i + 1 - w` through `i` of the series: the rolling window
ending at row `i`. -/
def windowAt (cells : List PVal) (w : Nat) (i : Nat) : List PVal :=
  (cells.take (i + 1)).drop (i + 1 - w)

/-- The reduction a rolling window applies (callers dispatch only the five
names the source accepts; `std` is modelled by `sampleVarModel`). -/
def rollAggValue (function : String) (obs : List PF) : PF :=
  if function = "mean" then pfMean obs
  else if function = "sum" then pfSum obs
  else if function = "min" then pfMin obs
  else if function = "max" then pfMax obs
  else sampleVarModel obs

/-- The rolling column: at each row, the reduction over the window ending
there, NaN when the window holds fewer than `min_periods` non-NaN
observations. -/
def rollCells (cells : List PVal) (w : Nat) (minP : Nat) (function : String) :
    List PVal :=
  (List.range cells.length).map (fun i =>
    let win := (windowAt cells w i).map PVal.toPF
    if pfCount win < minP then PVal.nan
    else (rollAggValue function win).toPVal)

/-- `window_aggregate(df, column, window_size, function, min_periods)`: a
missing column raises (`result[column]`), `rolling` validates the window
(`window >= 1`, `min_periods <= window`), an unknown function name raises,
and otherwise one new column named
`column + "_rolling_" + function + "_" + str(window_size)` is assigned. -/
def window_aggregate (df : DataFrame) (column : String) (windowSize : Nat)
    (function : String) (minPeriods : Nat) : Except String DataFrame :=
  if ¬df.hasCol column then .error "KeyError"
  else if windowSize = 0 ∨ minPeriods > windowSize then .error "ValueError: window"
  else if ["mean", "sum", "min", "max", "std"].contains function then
    .ok (df.assignCol (column ++ "_rolling_" ++ function ++ "_" ++ toString windowSize)
      (rollCells (df.colCells column) windowSize minPeriods function))
  else .error ("Unknown window function: " ++ function)

/-! ## Ranking (`src/transform/join.py`, `rank_data`) -/

/-- The tie-break methods pandas `rank` accepts (an unknown method raises
inside pandas). -/
def validRankMethod (m : String) : Bool :=
  ["average", "min", "max", "first", "dense"].contains m

/-- The rank of one value `v` (at position `pos` of its series) among `vals`,
under the given method and direction; NaN ranks NaN (`na_option="keep"`). -/
def rankOne (vals : List PF) (v : PF) (pos : Nat) (method : String)
    (ascending : Bool) : PVal :=
  if v = PF.nan then PVal.nan
  else
    let obs := vals.filter (· ≠ PF.nan)
    let isBefore := fun x => if ascending then PF.ltb x v else PF.ltb v x
    let less := (obs.filter isBefore).length
    let eqn := obs.count v
    if method = "min" then PVal.num ((less : ℚ) + 1)
    else if method = "max" then PVal.num ((less : ℚ) + (eqn : ℚ))
    else if method = "average" then
      PVal.num ((((less : ℚ) + 1) + ((less : ℚ) + (eqn : ℚ))) / 2)
    else if method = "dense" then
      PVal.num (((dedupKeepFirst (obs.filter isBefore)).length : ℚ) + 1)
    else PVal.num ((less : ℚ) + ((vals.take pos).count v : ℚ) + 1)

/-- `series.rank(method, ascending)` over a whole column. -/
def rankSeries (cells : List PVal) (method : String) (ascending : Bool) :
    List PVal :=
  let vals := cells.map PVal.toPF
  (List.range cells.length).map (fun i =>
    rankOne vals (vals.getD i PF.nan) i method ascending)

/-- `df.groupby(keys)[column].rank(...)`: each row is ranked among the rows
of its group; rows whose key tuple has a missing value belong to no group
and get NaN. -/
def groupRankCells (df : DataFrame) (keys : List String) (column : String)
    (method : String) (ascending : Bool) : List PVal :=
  (List.range df.nrows).map (fun i =>
    let t := keyTupleAt df keys i
    if t.any PVal.isNA then PVal.nan
    else
      let idxs := groupRowIdx df keys t
      let vals := idxs.map (fun j => (df.cellAt column j).toPF)
      rankOne vals (df.cellAt column i).toPF
        ((idxs.takeWhile (fun j => j ≠ i)).length) method ascending)

/-- `rank_data(df, column, ascending, method, group_by)`: adds (or, when the
label already exists, overwrites) the column `column + "_rank"`.  An empty
`group_by` list is falsy in `if group_by:` and takes the global path. -/
def rank_data (df : DataFrame) (column : String) (ascending : Bool)
    (method : String) (groupBy : Option (List String)) :
    Except String DataFrame :=
  let rname := column ++ "_rank"
  match groupBy with
  | some keys =>
      if keys.isEmpty then
        if ¬df.hasCol column then .error "KeyError"
        else if validRankMethod method then
          .ok (df.assignCol rname (rankSeries (df.colCells column) method ascending))
        else .error "ValueError: method"
      else if ¬keys.all df.hasCol ∨ ¬df.hasCol column then .error "KeyError"
      else if validRankMethod method then
        .ok (df.assignCol rname (groupRankCells df keys column method ascending))
      else .error "ValueError: method"
  | none =>
      if ¬df.hasCol column then .error "KeyError"
      else if validRankMethod method then
        .ok (df.assignCol rname (rankSeries (df.colCells column) method ascending))
      else .error "ValueError: method"

/-! ## Percentage of total (`src/transform/join.py`, `calculate_percentages`) -/

/-- `(col / col.sum()) * 100` over a whole column: there is no
divide-by-zero guard, the IEEE division supplies NaN and infinities. -/
def globalPct (cells : List PVal) : List PVal :=
  let vals := cells.map PVal.toPF
  let s := pfSum vals
  vals.map (fun v => ((v.div s).mul100).toPVal)

/-- `groupby(keys)[col].transform(lambda x: (x / x.sum()) * 100)`: each row
against its group's sum; rows with a missing key value get NaN. -/
def groupPctCells (df : DataFrame) (keys : List String) (column : String) :
    List PVal :=
  (List.range df.nrows).map (fun i =>
    let t := keyTupleAt df keys i
    if t.any PVal.isNA then PVal.nan
    else
      let s := pfSum ((groupRowIdx df keys t).map
        (fun j => (df.cellAt column j).toPF))
      (((df.cellAt column i).toPF.div s).mul100).toPVal)

/-- `calculate_percentages(df, value_column, group_by)`: adds (or overwrites)
the column `value_column + "_pct"`.  An empty `group_by` list is falsy and
takes the global path. -/
def calculate_percentages (df : DataFrame) (valueColumn : String)
    (groupBy : Option (List String)) : Except String DataFrame :=
  let pname := valueColumn ++ "_pct"
  match groupBy with
  | some keys =>
      if keys.isEmpty then
        if ¬df.hasCol valueColumn then .error "KeyError"
        else .ok (df.assignCol pname (globalPct (df.colCells valueColumn)))
      else if ¬keys.all df.hasCol ∨ ¬df.hasCol valueColumn then .error "KeyError"
      else .ok (df.assignCol pname (groupPctCells df keys valueColumn))
  | none =>
      if ¬df.hasCol valueColumn then .error "KeyError"
      else .ok (df.assignCol pname (globalPct (df.colCells valueColumn)))

/-! ## General lemmas about the DataFrame operations -/

instance {ε α : Type} [DecidableEq ε] [DecidableEq α] :
    DecidableEq (Except ε α) := fun a b =>
  match a, b with
  | .ok x, .ok y =>
      if h : x = y then isTrue (by rw [h])
      else isFalse (fun hh => by cases hh; exact h rfl)
  | .error x, .error y =>
      if h : x = y then isTrue (by rw [h])
      else isFalse (fun hh => by cases hh; exact h rfl)
  | .ok _, .error _ => isFalse (fun hh => by cases hh)
  | .error _, .ok _ => isFalse (fun hh => by cases hh)

/-- After replacing the cells of the columns labelled `n`, looking `n` up
yields the new cells. -/
theorem find_repl_cells (n : String) (cs : List PVal) :
    ∀ (cols : List Col), (cols.find? (fun c => c.name = n)).isSome = true →
      ((cols.map (fun c => if c.name = n then
          { c with isNumeric := numericCells cs, cells := cs } else c)).find?
        (fun c => c.name = n)) =
        some ⟨n, numericCells cs, cs⟩ := by
  intro cols
  induction cols with
  | nil => intro h; simp [List.find?] at h
  | cons c rest ih =>
    intro h
    by_cases hc : c.name = n
    · simp [List.find?, hc]
    · simp only [List.map_cons, if_neg hc]
      rw [List.find?_cons_of_neg _ (by simp [hc])]
      apply ih
      rw [List.find?_cons_of_neg _ (by simp [hc])] at h
      exact h

/-- Appending a fresh column labelled `n` to columns not containing `n` makes
a lookup of `n` yield it. -/
theorem find_append_fresh (n : String) (newCol : Col) (hn : newCol.name = n) :
    ∀ (cols : List Col), (cols.find? (fun c => c.name = n)).isSome = false →
      ((cols ++ [newCol]).find? (fun c => c.name = n)) = some newCol := by
  intro cols
  induction cols with
  | nil => intro _; simp [List.find?, hn]
  | cons c rest ih =>
    intro h
    by_cases hc : c.name = n
    · rw [List.find?_cons_of_pos _ (by simp [hc])] at h
      simp at h
    · simp only [List.cons_append]
      rw [List.find?_cons_of_neg _ (by simp [hc])]
      apply ih
      rw [List.find?_cons_of_neg _ (by simp [hc])] at h
      exact h

/-- The cells of a just-assigned column are the assigned cells. -/
theorem assignCol_colCells (df : DataFrame) (n : String) (cs : List PVal) :
    (df.assignCol n cs).colCells n = cs := by
  unfold DataFrame.assignCol
  by_cases h : df.hasCol n
  · rw [if_pos h]
    unfold DataFrame.colCells
    rw [find_repl_cells n cs df.cols h]
  · rw [if_neg h]
    unfold DataFrame.colCells
    rw [find_append_fresh n _ rfl df.cols (by simpa [DataFrame.hasCol] using h)]

/-- Assigning a label the DataFrame does not carry appends one column. -/
theorem assignCol_fresh (df : DataFrame) (n : String) (cs : List PVal)
    (h : df.hasCol n = false) :
    df.assignCol n cs =
      { df with cols := df.cols ++ [⟨n, numericCells cs, cs⟩] } := by
  unfold DataFrame.assignCol
  rw [if_neg (by simp [h])]

/-! ## C2: percentage-of-total with a zero denominator -/

/-- An all-zero two-row value column. -/
def c2df : DataFrame :=
  { nrows := 2, cols := [⟨"v", true, [PVal.num 0, PVal.num 0]⟩] }

/-- C2, counterexample: on an all-zero column the derived percentage column
holds NaN in every cell, not 0 — `(x / x.sum()) * 100` divides zero by zero
and no guard replaces the result.  The claim that every cell is 0 is false on
this input. -/
theorem c2_counterexample :
    (calculate_percentages c2df "v" none).map (fun r => r.colCells "v_pct") =
      Except.ok [PVal.nan, PVal.nan] ∧
    PVal.nan ≠ PVal.num 0 := by
  constructor
  · have h : calculate_percentages c2df "v" none =
        Except.ok (c2df.assignCol "v_pct" (globalPct (c2df.colCells "v"))) := by
      simp [calculate_percentages, c2df, DataFrame.hasCol, List.find?]
    rw [h, Except.map]
    rw [assignCol_colCells]
    simp [c2df, DataFrame.colCells, List.find?, globalPct, pfSum, PVal.toPF,
      PF.add, PF.div, PF.mul100, PF.toPVal]
  · decide

/-- Every cell of the list is the zero number. -/
theorem pfSum_zeros (l : List PF) (h : ∀ x ∈ l, x = PF.fin 0) :
    pfSum l = PF.fin 0 := by
  induction l with
  | nil => rfl
  | cons x xs ih =>
    have hx := h x (by simp)
    subst hx
    rw [pfSum]
    rw [if_neg (by simp)]
    rw [ih (fun y hy => h y (by simp [hy]))]
    show PF.fin (0 + 0) = PF.fin 0
    norm_num

/-- C2, amended: for a column whose cells are all the number 0, the
percentage-of-total operation (no grouping) does not raise and fills every
cell of the derived `_pct` column with NaN (missing), not 0. -/
theorem c2_zero_denominator_nan (df : DataFrame) (col : String)
    (hc : df.hasCol col = true)
    (hz : ∀ x ∈ df.colCells col, x = PVal.num 0) :
    ∃ r, calculate_percentages df col none = Except.ok r ∧
      (∀ x ∈ r.colCells (col ++ "_pct"), x = PVal.nan) ∧
      (r.colCells (col ++ "_pct")).length = (df.colCells col).length := by
  refine ⟨df.assignCol (col ++ "_pct") (globalPct (df.colCells col)), ?_, ?_, ?_⟩
  · simp [calculate_percentages, hc]
  · rw [assignCol_colCells]
    unfold globalPct
    intro x hx
    simp only [List.mem_map] at hx
    obtain ⟨v, hv, hvx⟩ := hx
    obtain ⟨w, hw, hwv⟩ := hv
    have hw0 := hz w hw
    subst hw0
    have hsum : pfSum (List.map PVal.toPF (df.colCells col)) = PF.fin 0 := by
      apply pfSum_zeros
      intro y hy
      simp only [List.mem_map] at hy
      obtain ⟨z, hz2, hzy⟩ := hy
      have := hz z hz2
      subst this
      simpa [PVal.toPF] using hzy.symm
    rw [hsum] at hvx
    rw [← hvx, ← hwv]
    rfl
  · rw [assignCol_colCells]
    unfold globalPct
    simp

/-- C2, witness: the amended theorem applied to the concrete all-zero
column. -/
theorem c2_zero_denominator_nan_witness :
    ∃ r, calculate_percentages c2df "v" none = Except.ok r ∧
      (∀ x ∈ r.colCells "v_pct", x = PVal.nan) ∧
      (r.colCells "v_pct").length = (c2df.colCells "v").length :=
  c2_zero_denominator_nan c2df "v" (by decide) (by decide)

/-! ## C6: the global percentage column sums to 100 -/

/-- The finite entries of a list of IEEE values. -/
def finParts (l : List PF) : List ℚ :=
  l.filterMap (fun x => match x with | .fin a => some a | _ => none)

/-- Every entry is NaN or finite. -/
def finOrNan (l : List PF) : Prop := ∀ x ∈ l, x = PF.nan ∨ ∃ a, x = PF.fin a

theorem pfSum_of_finOrNan (l : List PF) (h : finOrNan l) :
    pfSum l = PF.fin (finParts l).sum := by
  induction l with
  | nil => simp [pfSum, finParts]
  | cons x xs ih =>
    have hind := ih (fun y hy => h y (by simp [hy]))
    rcases h x (by simp) with hx | ⟨a, hx⟩
    · subst hx
      rw [pfSum, if_pos rfl, hind]
      simp [finParts]
    · subst hx
      rw [pfSum, if_neg (by simp), hind]
      show PF.fin (a + (finParts xs).sum) = _
      simp [finParts]

theorem add_fin_parts (x y : PF) (c : ℚ) (h : PF.add x y = PF.fin c) :
    (∃ a, x = PF.fin a) ∧ ∃ b, y = PF.fin b := by
  cases x <;> cases y <;> simp [PF.add] at h ⊢

theorem finOrNan_of_pfSum (l : List PF) (S : ℚ) (h : pfSum l = PF.fin S) :
    finOrNan l := by
  induction l generalizing S with
  | nil => intro x hx; simp at hx
  | cons x xs ih =>
    rw [pfSum] at h
    by_cases hx : x = PF.nan
    · rw [if_pos hx] at h
      intro y hy
      rcases List.mem_cons.mp hy with hy | hy
      · subst hy; exact Or.inl hx
      · exact ih S h y hy
    · rw [if_neg hx] at h
      obtain ⟨⟨a, hxa⟩, ⟨b, hsb⟩⟩ := add_fin_parts _ _ _ h
      intro y hy
      rcases List.mem_cons.mp hy with hy | hy
      · subst hy; exact Or.inr ⟨a, hxa⟩
      · exact ih b hsb y hy

theorem sum_map_smul (c : ℚ) (l : List ℚ) :
    (l.map (fun a => c * a)).sum = c * l.sum := by
  induction l with
  | nil => simp
  | cons x xs ih => simp [ih, mul_add]

/-- Round trip between cells and IEEE values. -/
theorem toPF_toPVal (x : PF) : PVal.toPF (PF.toPVal x) = x := by
  cases x <;> rfl

theorem pfSum_map_pct (S : ℚ) (hS : S ≠ 0) (vals : List PF)
    (hv : finOrNan vals) :
    pfSum (vals.map (fun v => PF.mul100 (PF.div v (PF.fin S)))) =
      PF.fin (((finParts vals).map (fun a => 100 * (a / S))).sum) := by
  induction vals with
  | nil => simp [pfSum, finParts]
  | cons x xs ih =>
    have hind := ih (fun y hy => hv y (by simp [hy]))
    rcases hv x (by simp) with hx | ⟨a, hx⟩
    · subst hx
      show pfSum (PF.nan :: _) = _
      rw [pfSum, if_pos rfl, hind]
      simp [finParts]
    · subst hx
      have hg : PF.mul100 (PF.div (PF.fin a) (PF.fin S)) = PF.fin (100 * (a / S)) := by
        rw [PF.div, if_neg hS, PF.mul100]
      simp only [List.map_cons]
      rw [pfSum, if_neg (by rw [hg]; simp), hg, hind]
      show PF.fin (100 * (a / S) + _) = _
      simp [finParts]

/-- C6, amended: whenever the value column's (NaN-skipping) sum is a nonzero
finite number `S`, the global percentage column sums to exactly 100 (hence
within the stated 0.01 tolerance).  NaN cells are skipped on both sides. -/
theorem c6_pct_sums_to_100 (df : DataFrame) (col : String) (S : ℚ)
    (hc : df.hasCol col = true)
    (hs : pfSum ((df.colCells col).map PVal.toPF) = PF.fin S)
    (hS : S ≠ 0) :
    ∃ r, calculate_percentages df col none = Except.ok r ∧
      ∃ q : ℚ, pfSum ((r.colCells (col ++ "_pct")).map PVal.toPF) = PF.fin q ∧
        |q - 100| ≤ 1 / 100 := by
  refine ⟨df.assignCol (col ++ "_pct") (globalPct (df.colCells col)), ?_, 100, ?_, by norm_num⟩
  · simp [calculate_percentages, hc]
  · rw [assignCol_colCells]
    simp only [globalPct]
    rw [hs]
    have hfon := finOrNan_of_pfSum _ _ hs
    have hmap : (((df.colCells col).map PVal.toPF).map
        (fun v => PF.toPVal (PF.mul100 (PF.div v (PF.fin S))))).map PVal.toPF =
        ((df.colCells col).map PVal.toPF).map
          (fun v => PF.mul100 (PF.div v (PF.fin S))) := by
      rw [List.map_map]
      apply List.map_congr_left
      intro v _
      exact toPF_toPVal _
    rw [hmap, pfSum_map_pct S hS _ hfon]
    have hS2 : (finParts ((df.colCells col).map PVal.toPF)).sum = S := by
      have := pfSum_of_finOrNan _ hfon
      rw [this] at hs
      exact PF.fin.inj hs
    have hterm : (finParts ((df.colCells col).map PVal.toPF)).map
        (fun a => 100 * (a / S)) =
        (finParts ((df.colCells col).map PVal.toPF)).map
          (fun a => (100 / S) * a) := by
      apply List.map_congr_left
      intro a _
      ring
    rw [hterm, sum_map_smul, hS2, div_mul_cancel₀ _ hS]

/-- A two-row value column that is not all zero but sums to zero. -/
def c6df : DataFrame :=
  { nrows := 2, cols := [⟨"v", true, [PVal.num 1, PVal.num (-1)]⟩] }

/-- C6, counterexample: the column `[1, -1]` is non-empty and not all zero,
yet its sum is zero, so the derived percentages are the infinities and their
sum is NaN — not 100 within any tolerance.  The claim as stated (requiring
only "not all zero") is false on this input. -/
theorem c6_counterexample :
    c6df.nrows ≠ 0 ∧
    ¬(∀ x ∈ c6df.colCells "v", x = PVal.num 0) ∧
    (calculate_percentages c6df "v" none).map
      (fun r => pfSum ((r.colCells "v_pct").map PVal.toPF)) =
      Except.ok PF.nan ∧
    PF.nan ≠ PF.fin 100 := by
  refine ⟨by decide, by decide, ?_, by decide⟩
  have h : calculate_percentages c6df "v" none =
      Except.ok (c6df.assignCol "v_pct" (globalPct (c6df.colCells "v"))) := by
    simp [calculate_percentages, c6df, DataFrame.hasCol, List.find?]
  rw [h, Except.map, assignCol_colCells]
  simp only [c6df, DataFrame.colCells, List.find?]
  simp [globalPct, pfSum, PVal.toPF, PF.add, PF.div, PF.mul100, PF.toPVal]
  norm_num [PF.mul100, PF.toPVal, PVal.toPF]
  simp [PF.add]

/-- C6, witness: the amended theorem applied to a concrete column `[1, 3]`
of sum 4. -/
def c6wdf : DataFrame :=
  { nrows := 2, cols := [⟨"v", true, [PVal.num 1, PVal.num 3]⟩] }

theorem c6_pct_sums_to_100_witness :
    ∃ r, calculate_percentages c6wdf "v" none = Except.ok r ∧
      ∃ q : ℚ, pfSum ((r.colCells "v_pct").map PVal.toPF) = PF.fin q ∧
        |q - 100| ≤ 1 / 100 :=
  c6_pct_sums_to_100 c6wdf "v" 4 (by decide)
    (by
      simp [c6wdf, DataFrame.colCells, List.find?, pfSum, PVal.toPF, PF.add]
      norm_num)
    (by norm_num)

/-! ## C4: the "transform" stage record -/

/-- A one-row frame produced by the counterexample extractor. -/
def c4data : DataFrame := { nrows := 1, cols := [⟨"id", true, [PVal.num 1]⟩] }

/-- An extractor that always succeeds with `c4data`. -/
def c4ex : Extractor :=
  { connectR := .ok true, extractR := fun _ => .ok c4data,
    disconnectR := .ok true }

/-- A pipeline with one successful extractor and no transformer. -/
def c4p : ETLPipeline :=
  { name := "p", extractors := [c4ex], transformer := none, loaders := [] }

/-- C4, counterexample: a run whose extract step completes without error but
has no transformer set records only "extract" and "load" stages — there is no
"transform" stage record at all, contradicting the claim's pass-through
case. -/
theorem c4_counterexample :
    (c4p.run none none).status = "success" ∧
    ((c4p.run none none).stages.map StageRecord.name) =
      [some "extract", some "load"] := by
  constructor <;> rfl

/-- C4, amended: a "transform" stage record exists exactly when a transformer
is set and the combined extracted data is non-empty; in that case (and with
the chain succeeding) its `records_processed` is the post-transform row
count.  In the pass-through case no "transform" stage is recorded. -/
theorem c4_transform_stage (p : ETLPipeline) (ekw lkw : Option (List Params))
    (ds : List DataFrame)
    (hx : runExtractors p.extractors (defaultKwargs ekw p.extractors.length) 0 =
      Except.ok ds) :
    ((combineData ds).isEmpty = true ∨ p.transformer = none →
      ((p.run ekw lkw).stages.filter (fun s => s.name = some "transform")) = []) ∧
    (∀ tr d, p.transformer = some tr → (combineData ds).isEmpty = false →
      tr.transform (combineData ds) = Except.ok d →
      ((p.run ekw lkw).stages.filter (fun s => s.name = some "transform")) =
        [⟨some "transform", d.nrows, "success"⟩]) := by
  constructor
  · intro hcase
    have htp : transformPhase p.transformer (combineData ds)
        ((((Monitor.init p.name).startPipeline).startStage "extract").endStage
          (combineData ds).nrows true) =
        .ok ((((Monitor.init p.name).startPipeline).startStage "extract").endStage
          (combineData ds).nrows true, combineData ds) := by
      rcases hcase with hce | hct
      · cases htr : p.transformer with
        | none => simp [transformPhase]
        | some tr => simp [transformPhase, hce]
      · simp [transformPhase, hct]
    simp only [ETLPipeline.run, runBody, hx, htp]
    cases hld : runLoaders p.loaders (defaultKwargs lkw p.loaders.length)
        (combineData ds) 0 with
    | error e =>
      simp [Monitor.init, Monitor.startPipeline, Monitor.startStage,
        Monitor.endStage, Monitor.recordError, Monitor.endPipeline]
    | ok u =>
      simp [Monitor.init, Monitor.startPipeline, Monitor.startStage,
        Monitor.endStage, Monitor.recordError, Monitor.endPipeline]
  · intro tr d htr hne htd
    have htp : transformPhase p.transformer (combineData ds)
        ((((Monitor.init p.name).startPipeline).startStage "extract").endStage
          (combineData ds).nrows true) =
        .ok (((((Monitor.init p.name).startPipeline).startStage "extract").endStage
          (combineData ds).nrows true).startStage "transform" |>.endStage d.nrows true,
          d) := by
      rw [htr]
      simp [transformPhase, hne, htd]
    simp only [ETLPipeline.run, runBody, hx, htp]
    cases hld : runLoaders p.loaders (defaultKwargs lkw p.loaders.length) d 0 with
    | error e =>
      simp [Monitor.init, Monitor.startPipeline, Monitor.startStage,
        Monitor.endStage, Monitor.recordError, Monitor.endPipeline]
    | ok u =>
      simp [Monitor.init, Monitor.startPipeline, Monitor.startStage,
        Monitor.endStage, Monitor.recordError, Monitor.endPipeline]

/-- C4, witness: the amended theorem applied to a concrete pipeline with a
transformer that keeps the single extracted row. -/
def c4tr : DataTransformer := { transformations := [fun d => .ok d] }

def c4pw : ETLPipeline :=
  { name := "p", extractors := [c4ex], transformer := some c4tr, loaders := [] }

theorem c4_transform_stage_witness :
    ((c4pw.run none none).stages.filter (fun s => s.name = some "transform")) =
      [⟨some "transform", 1, "success"⟩] := by
  have h := (c4_transform_stage c4pw none none [c4data] (by rfl)).2 c4tr
    (combineData [c4data]) rfl (by rfl) (by rfl)
  simpa using h

/-! ## C1: fail-fast with a recorded "transform" error -/

/-- A chain containing a step that always raises itself always raises. -/
theorem chainTransforms_raises (fs : List (DataFrame → Except String DataFrame))
    (h : ∃ f ∈ fs, ∀ d, ∃ e, f d = Except.error e) :
    ∀ d, ∃ e, chainTransforms fs d = Except.error e := by
  induction fs with
  | nil => obtain ⟨f, hf, _⟩ := h; simp at hf
  | cons g rest ih =>
    intro d
    obtain ⟨f, hf, hraise⟩ := h
    rcases List.mem_cons.mp hf with hfg | hfr
    · subst hfg
      obtain ⟨e, he⟩ := hraise d
      exact ⟨e, by rw [chainTransforms, he]⟩
    · cases hgd : g d with
      | error e => exact ⟨e, by rw [chainTransforms, hgd]⟩
      | ok d2 =>
        obtain ⟨e, he⟩ := ih ⟨f, hfr, hraise⟩ d2
        exact ⟨e, by rw [chainTransforms, hgd]; exact he⟩

/-- A transformer whose single step always raises. -/
def c1tr : DataTransformer :=
  { transformations := [fun _ => Except.error "boom"] }

/-- A pipeline with no extractors and the always-raising transformer. -/
def c1p : ETLPipeline :=
  { name := "p", extractors := [], transformer := some c1tr, loaders := [] }

/-- C1, counterexample: with no extractors the combined data is empty, the
always-raising transformer is never invoked, and the run reports "success"
with no error records — contradicting the claim's universally quantified
"status failed with one transform error record". -/
theorem c1_counterexample :
    c1tr.transform DataFrame.emptyDF = Except.error "boom" ∧
    (c1p.run none none).status = "success" ∧
    (c1p.run none none).errors = [] := by
  refine ⟨rfl, rfl, rfl⟩

/-- C1, amended: `run` is total (the embedding returns metrics for every
input), and whenever the extract phase completes without raising, the
combined data is non-empty, and some step of the transform chain always
raises, the returned metrics have status "failed" and exactly one error
record, whose stage is "transform". -/
theorem c1_failed_transform_error (p : ETLPipeline)
    (ekw lkw : Option (List Params)) (tr : DataTransformer)
    (ds : List DataFrame)
    (htr : p.transformer = some tr)
    (hraise : ∃ f ∈ tr.transformations, ∀ d, ∃ e, f d = Except.error e)
    (hx : runExtractors p.extractors (defaultKwargs ekw p.extractors.length) 0 =
      Except.ok ds)
    (hne : (combineData ds).isEmpty = false) :
    (p.run ekw lkw).status = "failed" ∧
    ∃ msg, (p.run ekw lkw).errors = [⟨some "transform", msg⟩] := by
  obtain ⟨e, he⟩ := chainTransforms_raises tr.transformations hraise (combineData ds)
  have htd : tr.transform (combineData ds) = Except.error e := he
  have htp : transformPhase p.transformer (combineData ds)
      ((((Monitor.init p.name).startPipeline).startStage "extract").endStage
        (combineData ds).nrows true) =
      .error (e, ((((Monitor.init p.name).startPipeline).startStage "extract").endStage
        (combineData ds).nrows true).startStage "transform") := by
    rw [htr]
    simp [transformPhase, hne, htd]
  constructor
  · simp only [ETLPipeline.run, runBody, hx, htp]
    rfl
  · refine ⟨e, ?_⟩
    simp only [ETLPipeline.run, runBody, hx, htp]
    simp [Monitor.init, Monitor.startPipeline, Monitor.startStage,
      Monitor.endStage, Monitor.recordError, Monitor.endPipeline]

/-- C1, witness: the amended theorem applied to a concrete pipeline whose
extractor yields one row and whose transformer always raises. -/
def c1pw : ETLPipeline :=
  { name := "p", extractors := [c4ex], transformer := some c1tr, loaders := [] }

theorem c1_failed_transform_error_witness :
    (c1pw.run none none).status = "failed" ∧
    ∃ msg, (c1pw.run none none).errors = [⟨some "transform", msg⟩] :=
  c1_failed_transform_error c1pw none none c1tr [c4data] rfl
    ⟨fun _ => Except.error "boom", by simp [c1tr], fun d => ⟨"boom", rfl⟩⟩
    (by rfl) (by rfl)

/-! ## C9: parameter lists shorter than the adapter lists -/

/-- Benign adapters make the extract loop succeed for every parameter list
and start index. -/
theorem runExtractors_ok (exs : List Extractor)
    (h : ∀ e ∈ exs, (∃ b, e.connectR = Except.ok b) ∧
      (∀ kw, ∃ d, e.extractR kw = Except.ok d) ∧
      (∃ b, e.disconnectR = Except.ok b)) :
    ∀ kw i, ∃ ds, runExtractors exs kw i = Except.ok ds := by
  induction exs with
  | nil => intro kw i; exact ⟨[], rfl⟩
  | cons e rest ih =>
    intro kw i
    obtain ⟨⟨b1, hb1⟩, hext, ⟨b2, hb2⟩⟩ := h e (by simp)
    obtain ⟨d, hd⟩ := hext (kwargsAt kw i)
    obtain ⟨tail, htail⟩ := ih (fun x hx => h x (by simp [hx])) kw (i + 1)
    refine ⟨if d.isEmpty then tail else d :: tail, ?_⟩
    rw [runExtractors, hb1, hd, hb2, htail]

/-- Benign sinks make the load loop succeed for every parameter list. -/
theorem runLoaders_ok (ls : List Loader)
    (h : ∀ l ∈ ls, (∃ b, l.connectR = Except.ok b) ∧
      (∀ d kw, ∃ b, l.loadR d kw = Except.ok b) ∧
      (∃ b, l.disconnectR = Except.ok b)) :
    ∀ kw d i, runLoaders ls kw d i = Except.ok () := by
  induction ls with
  | nil => intro kw d i; rfl
  | cons l rest ih =>
    intro kw d i
    obtain ⟨⟨b1, hb1⟩, hload, ⟨b2, hb2⟩⟩ := h l (by simp)
    obtain ⟨b, hb⟩ := hload d (kwargsAt kw i)
    rw [runLoaders, hb1, hb]
    exact ih (fun x hx => h x (by simp [hx])) kw d i.succ

/-- Out-of-range indices of a parameter list give the empty dictionary. -/
theorem kwargsAt_beyond (l : List Params) (i : Nat) (h : l.length ≤ i) :
    kwargsAt l i = [] := by
  unfold kwargsAt
  induction l generalizing i with
  | nil => simp
  | cons x xs ih =>
    cases i with
    | zero => simp at h
    | succ j => simpa using ih j (by simpa using h)

/-- An always-succeeding transform phase. -/
theorem transformPhase_ok (t : Option DataTransformer)
    (htr : ∀ tr, t = some tr → ∀ d, ∃ d2, tr.transform d = Except.ok d2)
    (combined : DataFrame) (m : Monitor) :
    ∃ m2 d2, transformPhase t combined m = Except.ok (m2, d2) := by
  cases t with
  | none => exact ⟨m, combined, rfl⟩
  | some tr =>
    by_cases hce : combined.isEmpty
    · exact ⟨m, combined, by simp [transformPhase, hce]⟩
    · obtain ⟨d2, hd2⟩ := htr tr rfl combined
      refine ⟨(m.startStage "transform").endStage d2.nrows true, d2, ?_⟩
      simp [transformPhase, hce, hd2]

/-- C9: when the per-source or per-sink parameter list is shorter than the
corresponding adapter list, every adapter beyond its end is invoked with the
empty parameter dictionary, and — adapters and chain behaving — the length
mismatch never makes the run fail. -/
theorem c9_short_kwargs (p : ETLPipeline) (ekw lkw : List Params)
    (hex : ∀ e ∈ p.extractors, (∃ b, e.connectR = Except.ok b) ∧
      (∀ kw, ∃ d, e.extractR kw = Except.ok d) ∧
      (∃ b, e.disconnectR = Except.ok b))
    (hld : ∀ l ∈ p.loaders, (∃ b, l.connectR = Except.ok b) ∧
      (∀ d kw, ∃ b, l.loadR d kw = Except.ok b) ∧
      (∃ b, l.disconnectR = Except.ok b))
    (htr : ∀ tr, p.transformer = some tr → ∀ d, ∃ d2, tr.transform d = Except.ok d2) :
    (p.run (some ekw) (some lkw)).status = "success" ∧
    (∀ i, ekw.length ≤ i → kwargsAt ekw i = []) ∧
    (∀ i, lkw.length ≤ i → kwargsAt lkw i = []) := by
  refine ⟨?_, fun i hi => kwargsAt_beyond ekw i hi,
    fun i hi => kwargsAt_beyond lkw i hi⟩
  obtain ⟨ds, hds⟩ := runExtractors_ok p.extractors hex
    (defaultKwargs (some ekw) p.extractors.length) 0
  obtain ⟨m2, d2, htp⟩ := transformPhase_ok p.transformer htr (combineData ds)
    ((((Monitor.init p.name).startPipeline).startStage "extract").endStage
      (combineData ds).nrows true)
  have hldr := runLoaders_ok p.loaders hld
    (defaultKwargs (some lkw) p.loaders.length) d2 0
  simp only [ETLPipeline.run, runBody, hds, htp, hldr]
  simp [Monitor.endStage, Monitor.endPipeline]

/-- C9, witness: a concrete pipeline with two extractors and two loaders run
with singleton parameter lists. -/
def c9ex2 : Extractor :=
  { connectR := .ok true, extractR := fun _ => .ok c4data,
    disconnectR := .ok true }

def c9ld : Loader :=
  { connectR := .ok true, loadR := fun _ _ => .ok true,
    disconnectR := .ok true }

def c9p : ETLPipeline :=
  { name := "p", extractors := [c4ex, c9ex2], transformer := none,
    loaders := [c9ld, c9ld] }

theorem c9_short_kwargs_witness :
    (c9p.run (some [[("a", PVal.num 1)]]) (some [[("b", PVal.num 2)]])).status =
      "success" ∧
    kwargsAt [[("a", PVal.num 1)]] 1 = [] ∧
    kwargsAt [[("b", PVal.num 2)]] 1 = [] := by
  have h := c9_short_kwargs c9p [[("a", PVal.num 1)]] [[("b", PVal.num 2)]]
    (by
      intro e he
      simp [c9p] at he
      rcases he with he | he <;> subst he <;>
        exact ⟨⟨true, rfl⟩, fun kw => ⟨c4data, rfl⟩, ⟨true, rfl⟩⟩)
    (by
      intro l hl
      simp [c9p] at hl
      subst hl
      exact ⟨⟨true, rfl⟩, fun d kw => ⟨true, rfl⟩, ⟨true, rfl⟩⟩)
    (by intro tr htr2; simp [c9p] at htr2)
  exact ⟨h.1, h.2.1 1 (by simp), h.2.2 1 (by simp)⟩

/-! ## C3: grouped aggregation row count -/

/-- The fold behind `dedupKeepFirst` keeps the list duplicate-free and
accumulates exactly the members seen. -/
theorem dedup_foldl_nodup_toFinset {α : Type} [DecidableEq α] (l : List α) :
    ∀ (acc : List α), acc.Nodup →
      (l.foldl (fun acc x => if x ∈ acc then acc else acc ++ [x]) acc).Nodup ∧
      (l.foldl (fun acc x => if x ∈ acc then acc else acc ++ [x]) acc).toFinset =
        acc.toFinset ∪ l.toFinset := by
  induction l with
  | nil => intro acc hacc; simpa using hacc
  | cons x xs ih =>
    intro acc hacc
    simp only [List.foldl_cons]
    by_cases hx : x ∈ acc
    · rw [if_pos hx]
      obtain ⟨hn, hf⟩ := ih acc hacc
      refine ⟨hn, ?_⟩
      rw [hf, List.toFinset_cons]
      ext y
      simp only [Finset.mem_union, Finset.mem_insert, List.mem_toFinset]
      constructor
      · rintro (hy | hy)
        · exact Or.inl hy
        · exact Or.inr (Or.inr hy)
      · rintro (hy | hy | hy)
        · exact Or.inl hy
        · subst hy; exact Or.inl (by simpa using hx)
        · exact Or.inr hy
    · rw [if_neg hx]
      have hacc2 : (acc ++ [x]).Nodup := by
        simp [List.nodup_append, hacc, hx]
      obtain ⟨hn, hf⟩ := ih (acc ++ [x]) hacc2
      refine ⟨hn, ?_⟩
      rw [hf, List.toFinset_append, List.toFinset_cons]
      ext y
      simp only [Finset.mem_union, Finset.mem_insert, List.mem_toFinset,
        List.toFinset_cons, List.toFinset_nil, Finset.mem_singleton]
      constructor
      · rintro ((hy | hy) | hy)
        · exact Or.inl hy
        · simp at hy
          exact Or.inr (Or.inl hy)
        · exact Or.inr (Or.inr hy)
      · rintro (hy | hy | hy)
        · exact Or.inl (Or.inl hy)
        · exact Or.inl (Or.inr (by simp [hy]))
        · exact Or.inr hy

/-- First-occurrence deduplication counts the distinct members. -/
theorem dedupKeepFirst_length {α : Type} [DecidableEq α] (l : List α) :
    (dedupKeepFirst l).length = l.toFinset.card := by
  obtain ⟨hn, hf⟩ := dedup_foldl_nodup_toFinset l [] List.nodup_nil
  have h1 : (dedupKeepFirst l).Nodup := hn
  have h2 : (dedupKeepFirst l).toFinset = l.toFinset := by
    unfold dedupKeepFirst
    rw [hf]
    simp
  rw [← h2, List.toFinset_card_of_nodup h1]

/-- C3, amended: with a non-empty grouping-key list and all referenced
columns present, the grouped aggregation succeeds and its row count equals
the number of distinct key tuples *with no missing component* present in the
input (groupby drops rows with a missing key, so a null-keyed tuple produces
no group).  Both `aggregate_data` and `DataTransformer.aggregate` have this
row count. -/
theorem c3_agg_row_count (df : DataFrame) (groupBy : List String)
    (aggs : List (String × AggOne)) (resetIndex : Bool)
    (h1 : groupBy ≠ [])
    (h2 : groupBy.all df.hasCol = true)
    (h3 : (aggs.map Prod.fst).all df.hasCol = true) :
    (∃ r, aggregate_data df groupBy aggs resetIndex = Except.ok r ∧
      r.nrows = (validKeyTuples df groupBy).toFinset.card) ∧
    ∀ (aggsS : List (String × AggFn)),
      (aggsS.map Prod.fst).all df.hasCol = true →
      ∃ r2, DataTransformer.aggregate df groupBy aggsS = Except.ok r2 ∧
        r2.nrows = (validKeyTuples df groupBy).toFinset.card := by
  have hkey : ∀ (ag : List (String × AggOne)),
      (ag.map Prod.fst).all df.hasCol = true →
      ∃ r, aggregate_data df groupBy ag resetIndex = Except.ok r ∧
        r.nrows = (validKeyTuples df groupBy).toFinset.card := by
    intro ag hag
    unfold aggregate_data
    rw [if_neg (by simpa using h1), if_neg (by simp [h2]), if_neg (by simp [hag])]
    refine ⟨_, rfl, ?_⟩
    show (groupKeys df groupBy).length = _
    unfold groupKeys
    exact dedupKeepFirst_length _
  refine ⟨hkey aggs h3, ?_⟩
  intro aggsS hS
  obtain ⟨r, hr, hn⟩ := hkey (aggsS.map (fun p => (p.1, AggOne.single p.2)))
    (by
      have : (aggsS.map (fun p => (p.1, AggOne.single p.2))).map Prod.fst =
          aggsS.map Prod.fst := by
        rw [List.map_map]; rfl
      rw [this]; exact hS)
  refine ⟨r, ?_, hn⟩
  unfold DataTransformer.aggregate
  have hres : ∀ b, aggregate_data df groupBy
      (aggsS.map (fun p => (p.1, AggOne.single p.2))) b =
      aggregate_data df groupBy (aggsS.map (fun p => (p.1, AggOne.single p.2)))
        resetIndex := by
    intro b
    unfold aggregate_data
    rfl
  rw [hres true, hr]

/-- A frame whose key column holds one value and one missing cell. -/
def c3df : DataFrame :=
  { nrows := 2,
    cols := [⟨"k", false, [PVal.strv "a", PVal.nan]⟩,
             ⟨"v", true, [PVal.num 1, PVal.num 2]⟩] }

/-- C3, counterexample: the input has two distinct key tuples (`["a"]` and
`[NaN]`), but the aggregated result has one row — pandas `groupby` (default
`dropna=True`) drops the null-keyed row, so the claim "one row per distinct
key tuple present in the input" fails. -/
theorem c3_counterexample :
    (aggregate_data c3df ["k"] [("v", AggOne.single AggFn.sum)] true).map
      (fun r => r.nrows) = Except.ok 1 ∧
    (dedupKeepFirst (allKeyTuples c3df ["k"])).length = 2 := by
  constructor <;> rfl

/-- The grouped-aggregation scenario frame: category A/B/A. -/
def c3wdf : DataFrame :=
  { nrows := 3,
    cols := [⟨"category", false, [PVal.strv "A", PVal.strv "B", PVal.strv "A"]⟩,
             ⟨"value", true, [PVal.num 10, PVal.num 20, PVal.num 30]⟩] }

/-- C3, witness: the amended theorem applied to the category/value frame;
the row count is the two distinct key tuples. -/
theorem c3_agg_row_count_witness :
    (∃ r, aggregate_data c3wdf ["category"] [("value", AggOne.single AggFn.sum)]
        true = Except.ok r ∧
      r.nrows = (validKeyTuples c3wdf ["category"]).toFinset.card) ∧
    (validKeyTuples c3wdf ["category"]).toFinset.card = 2 := by
  refine ⟨((c3_agg_row_count c3wdf ["category"]
    [("value", AggOne.single AggFn.sum)] true (by decide) (by decide)
    (by decide)).1), by decide⟩

/-! ## C8: outlier filtering errors and precondition -/

/-- Mask-selection picks a sublist of the cells. -/
theorem maskKeep_sublist (mask : List Bool) (cells : List PVal) :
    (maskKeep mask cells).Sublist cells := by
  induction mask generalizing cells with
  | nil => simp [maskKeep]
  | cons b bm ih =>
    cases cells with
    | nil => simp [maskKeep]
    | cons c cs =>
      unfold maskKeep
      rw [List.zip_cons_cons, List.filterMap_cons]
      cases b with
      | true =>
        simp only [if_pos]
        exact List.Sublist.cons₂ c (ih cs)
      | false =>
        simp only [if_neg]
        exact List.Sublist.cons c (ih cs)

/-- Pairing a mapped list with its source pairs each image with its
argument. -/
theorem zip_map_self {α β : Type} (f : α → β) (l : List α) :
    ∀ pr ∈ (l.map f).zip l, pr.1 = f pr.2 := by
  induction l with
  | nil => simp
  | cons x xs ih =>
    intro pr hpr
    rcases List.mem_cons.mp hpr with h | h
    · subst h; rfl
    · exact ih pr h

/-- The two outlier masks have the column's length. -/
theorem outlierMask_length (cells : List PVal) (k : ℚ) :
    (iqrMask cells k).length = cells.length ∧
    (zscoreMask cells k).length = cells.length := by
  constructor
  · simp [iqrMask]
  · unfold zscoreMask
    by_cases h : ((cells.map PVal.toPF).filter (· ≠ PF.nan)).length < 2 ∨
        ¬(((cells.map PVal.toPF).filter (· ≠ PF.nan)).all PF.isFin)
    · rw [if_pos h]; simp
    · rw [if_neg h]; simp

/-- The number of selected rows is at most the mask length. -/
theorem filterRows_nrows_le (df : DataFrame) (mask : List Bool) :
    (df.filterRows mask).nrows ≤ mask.length := by
  simpa [DataFrame.filterRows] using List.count_le_length true mask

/-- Column cells have the row count in a well-formed frame. -/
theorem colCells_length (df : DataFrame) (n : String) (hwf : df.wf = true)
    (hc : df.hasCol n = true) :
    (df.colCells n).length = df.nrows := by
  unfold DataFrame.colCells
  unfold DataFrame.hasCol at hc
  cases hfind : df.cols.find? (fun c => c.name = n) with
  | none => rw [hfind] at hc; simp at hc
  | some c =>
    have hmem : c ∈ df.cols := List.mem_of_find?_eq_some hfind
    have := (List.all_eq_true.mp hwf) c hmem
    simpa using this

/-- C8: `filter_outliers` raises exactly on a missing or non-numeric column
(given one of the two supported methods it otherwise does not raise), and
under the precondition it returns the row subset selected by the computed
bound: the same columns, each reduced to a sublist of its cells, with at
most the original number of rows. -/
theorem c8_filter_outliers (df : DataFrame) (column method : String) (k : ℚ)
    (hwf : df.wf = true) :
    ((df.hasCol column = false ∨ df.colIsNumeric column = false) →
      ∃ e, filter_outliers df column method k = Except.error e) ∧
    (df.hasCol column = true → df.colIsNumeric column = true →
      (method = "iqr" ∨ method = "zscore") →
      ∃ mask, filter_outliers df column method k =
          Except.ok (df.filterRows mask) ∧
        (df.filterRows mask).nrows ≤ df.nrows ∧
        (df.filterRows mask).colNames = df.colNames ∧
        ∀ pr ∈ (df.filterRows mask).cols.zip df.cols,
          pr.1.cells.Sublist pr.2.cells) := by
  constructor
  · rintro (h | h)
    · exact ⟨"Column " ++ column ++ " not found in DataFrame",
        by simp [filter_outliers, h]⟩
    · by_cases hc : df.hasCol column
      · exact ⟨"Column " ++ column ++ " is not numeric",
          by simp [filter_outliers, hc, h]⟩
      · exact ⟨"Column " ++ column ++ " not found in DataFrame",
          by simp [filter_outliers, hc]⟩
  · intro hc hnum hm
    have hmlen : ∀ mask : List Bool, mask.length = (df.colCells column).length →
        (df.filterRows mask).nrows ≤ df.nrows ∧
        (df.filterRows mask).colNames = df.colNames ∧
        ∀ pr ∈ (df.filterRows mask).cols.zip df.cols,
          pr.1.cells.Sublist pr.2.cells := by
      intro mask hlen
      refine ⟨?_, ?_, ?_⟩
      · have := filterRows_nrows_le df mask
        rw [hlen, colCells_length df column hwf hc] at this
        exact this
      · simp [DataFrame.filterRows, DataFrame.colNames]
      · intro pr hpr
        simp only [DataFrame.filterRows] at hpr
        have := zip_map_self
          (fun c => { c with cells := maskKeep mask c.cells }) df.cols pr hpr
        rw [this]
        exact maskKeep_sublist mask _
    rcases hm with hm | hm
    · subst hm
      refine ⟨iqrMask (df.colCells column) k, ?_,
        hmlen _ (outlierMask_length (df.colCells column) k).1⟩
      simp [filter_outliers, hc, hnum]
    · subst hm
      refine ⟨zscoreMask (df.colCells column) k, ?_,
        hmlen _ (outlierMask_length (df.colCells column) k).2⟩
      simp [filter_outliers, hc, hnum]

/-- The IQR-test frame of the repository's own test-suite shape. -/
def c8df : DataFrame :=
  { nrows := 3,
    cols := [⟨"value", true, [PVal.num 10, PVal.num 12, PVal.num 100]⟩,
             ⟨"label", false, [PVal.strv "a", PVal.strv "b", PVal.strv "c"]⟩] }

/-- C8, witness: the theorem applied concretely — a missing column raises,
and on the numeric column with method `iqr` the call succeeds. -/
theorem c8_filter_outliers_witness :
    (∃ e, filter_outliers c8df "missing" "iqr" (3/2) = Except.error e) ∧
    ∃ mask, filter_outliers c8df "value" "iqr" (3/2) =
        Except.ok (c8df.filterRows mask) ∧
      (c8df.filterRows mask).nrows ≤ c8df.nrows ∧
      (c8df.filterRows mask).colNames = c8df.colNames ∧
      ∀ pr ∈ (c8df.filterRows mask).cols.zip c8df.cols,
        pr.1.cells.Sublist pr.2.cells := by
  constructor
  · exact (c8_filter_outliers c8df "missing" "iqr" (3/2) (by decide)).1
      (Or.inl (by decide))
  · exact (c8_filter_outliers c8df "value" "iqr" (3/2) (by decide)).2
      (by decide) (by decide) (Or.inl rfl)

/-! ## C10: frame effects of rank, percentage, and rolling aggregation -/

theorem rankSeries_length (cells : List PVal) (method : String) (b : Bool) :
    (rankSeries cells method b).length = cells.length := by
  simp [rankSeries]

theorem groupRankCells_length (df : DataFrame) (keys : List String)
    (column method : String) (b : Bool) :
    (groupRankCells df keys column method b).length = df.nrows := by
  simp [groupRankCells]

theorem globalPct_length (cells : List PVal) :
    (globalPct cells).length = cells.length := by
  simp [globalPct]

theorem groupPctCells_length (df : DataFrame) (keys : List String)
    (column : String) :
    (groupPctCells df keys column).length = df.nrows := by
  simp [groupPctCells]

theorem rollCells_length (cells : List PVal) (w minP : Nat) (f : String) :
    (rollCells cells w minP f).length = cells.length := by
  simp [rollCells]

/-- C10, amended: provided the target column exists and the derived label is
not already taken (and the rolling window configuration is valid), each of
the three operations appends exactly one column — named `column + "_rank"`,
`column + "_pct"`, `column + "_rolling_" + function + "_" + str(window)` —
of `nrows` cells, leaving every existing column, the row order, and the row
count unchanged.  When the derived label already exists, the operation
instead overwrites it (the counterexample). -/
theorem c10_frame_effects (df : DataFrame) (column : String)
    (hwf : df.wf = true) (hc : df.hasCol column = true) :
    (∀ (ascending : Bool) (method : String) (groupBy : Option (List String)),
      validRankMethod method = true →
      (groupBy = none ∨ ∃ keys, groupBy = some keys ∧ keys.all df.hasCol = true) →
      df.hasCol (column ++ "_rank") = false →
      ∃ c, rank_data df column ascending method groupBy =
          Except.ok { df with cols := df.cols ++ [c] } ∧
        c.name = column ++ "_rank" ∧ c.cells.length = df.nrows) ∧
    (∀ (groupBy : Option (List String)),
      (groupBy = none ∨ ∃ keys, groupBy = some keys ∧ keys.all df.hasCol = true) →
      df.hasCol (column ++ "_pct") = false →
      ∃ c, calculate_percentages df column groupBy =
          Except.ok { df with cols := df.cols ++ [c] } ∧
        c.name = column ++ "_pct" ∧ c.cells.length = df.nrows) ∧
    (∀ (w minP : Nat) (function : String),
      1 ≤ w → minP ≤ w →
      function ∈ ["mean", "sum", "min", "max", "std"] →
      df.hasCol (column ++ "_rolling_" ++ function ++ "_" ++ toString w) = false →
      ∃ c, window_aggregate df column w function minP =
          Except.ok { df with cols := df.cols ++ [c] } ∧
        c.name = column ++ "_rolling_" ++ function ++ "_" ++ toString w ∧
        c.cells.length = df.nrows) := by
  have hlen := colCells_length df column hwf hc
  refine ⟨?_, ?_, ?_⟩
  · intro ascending method groupBy hvm hg hfresh
    rcases hg with hg | ⟨keys, hg, hkeys⟩
    · subst hg
      refine ⟨⟨column ++ "_rank", numericCells (rankSeries (df.colCells column)
        method ascending), rankSeries (df.colCells column) method ascending⟩,
        ?_, rfl, by rw [rankSeries_length, hlen]⟩
      rw [show rank_data df column ascending method none =
          Except.ok (df.assignCol (column ++ "_rank")
            (rankSeries (df.colCells column) method ascending)) from by
        simp [rank_data, hc, hvm]]
      rw [assignCol_fresh df _ _ hfresh]
    · subst hg
      by_cases hke : keys.isEmpty
      · refine ⟨⟨column ++ "_rank", numericCells (rankSeries (df.colCells column)
          method ascending), rankSeries (df.colCells column) method ascending⟩,
          ?_, rfl, by rw [rankSeries_length, hlen]⟩
        rw [show rank_data df column ascending method (some keys) =
            Except.ok (df.assignCol (column ++ "_rank")
              (rankSeries (df.colCells column) method ascending)) from by
          simp [rank_data, hke, hc, hvm]]
        rw [assignCol_fresh df _ _ hfresh]
      · refine ⟨⟨column ++ "_rank", numericCells (groupRankCells df keys column
          method ascending), groupRankCells df keys column method ascending⟩,
          ?_, rfl, by rw [groupRankCells_length]⟩
        rw [show rank_data df column ascending method (some keys) =
            Except.ok (df.assignCol (column ++ "_rank")
              (groupRankCells df keys column method ascending)) from by
          simp [rank_data, hke, hc, hvm, hkeys]]
        rw [assignCol_fresh df _ _ hfresh]
  · intro groupBy hg hfresh
    rcases hg with hg | ⟨keys, hg, hkeys⟩
    · subst hg
      refine ⟨⟨column ++ "_pct", numericCells (globalPct (df.colCells column)),
        globalPct (df.colCells column)⟩, ?_, rfl,
        by rw [globalPct_length, hlen]⟩
      rw [show calculate_percentages df column none =
          Except.ok (df.assignCol (column ++ "_pct")
            (globalPct (df.colCells column))) from by
        simp [calculate_percentages, hc]]
      rw [assignCol_fresh df _ _ hfresh]
    · subst hg
      by_cases hke : keys.isEmpty
      · refine ⟨⟨column ++ "_pct", numericCells (globalPct (df.colCells column)),
          globalPct (df.colCells column)⟩, ?_, rfl,
          by rw [globalPct_length, hlen]⟩
        rw [show calculate_percentages df column (some keys) =
            Except.ok (df.assignCol (column ++ "_pct")
              (globalPct (df.colCells column))) from by
          simp [calculate_percentages, hke, hc]]
        rw [assignCol_fresh df _ _ hfresh]
      · refine ⟨⟨column ++ "_pct", numericCells (groupPctCells df keys column),
          groupPctCells df keys column⟩, ?_, rfl,
          by rw [groupPctCells_length]⟩
        rw [show calculate_percentages df column (some keys) =
            Except.ok (df.assignCol (column ++ "_pct")
              (groupPctCells df keys column)) from by
          simp [calculate_percentages, hke, hc, hkeys]]
        rw [assignCol_fresh df _ _ hfresh]
  · intro w minP function hw hmp hf hfresh
    have hwcond : ¬(w = 0 ∨ minP > w) := by omega
    have hcontains : (["mean", "sum", "min", "max", "std"].contains function) = true := by
      have hd : function = "mean" ∨ function = "sum" ∨ function = "min" ∨
          function = "max" ∨ function = "std" := by simpa using hf
      rcases hd with h | h | h | h | h <;> subst h <;> rfl
    refine ⟨⟨column ++ "_rolling_" ++ function ++ "_" ++ toString w,
      numericCells (rollCells (df.colCells column) w minP function),
      rollCells (df.colCells column) w minP function⟩, ?_, rfl,
      by rw [rollCells_length, hlen]⟩
    rw [show window_aggregate df column w function minP =
        Except.ok (df.assignCol (column ++ "_rolling_" ++ function ++ "_" ++
          toString w) (rollCells (df.colCells column) w minP function)) from by
      unfold window_aggregate
      rw [if_neg (by simp [hc]), if_neg hwcond, if_pos hcontains]]
    rw [assignCol_fresh df _ _ hfresh]

/-- A frame already carrying the derived rank label. -/
def c10df : DataFrame :=
  { nrows := 1,
    cols := [⟨"value", true, [PVal.num 10]⟩,
             ⟨"value_rank", true, [PVal.num 7]⟩] }

/-- C10, counterexample: ranking `value` on a frame that already has a
`value_rank` column overwrites that column in place — the result still has
two columns (no column was added) and the pre-existing `value_rank` cells
changed from `[7]` to the computed `[1]`. -/
theorem c10_counterexample :
    (rank_data c10df "value" false "dense" none).map
      (fun r => (r.cols.length, r.colCells "value_rank")) =
      Except.ok (2, [PVal.num 1]) ∧
    c10df.cols.length = 2 ∧
    c10df.colCells "value_rank" = [PVal.num 7] := by
  refine ⟨?_, by decide, by decide⟩
  have hrk : rankSeries (c10df.colCells "value") "dense" false = [PVal.num 1] := by
    simp [c10df, DataFrame.colCells, List.find?, rankSeries, rankOne,
      PVal.toPF, PF.ltb, dedupKeepFirst, List.range_succ]
  have h : rank_data c10df "value" false "dense" none =
      Except.ok (c10df.assignCol "value_rank"
        (rankSeries (c10df.colCells "value") "dense" false)) := by
    simp [rank_data, c10df, DataFrame.hasCol, List.find?, validRankMethod]
  rw [h, Except.map, hrk]
  decide

/-- A two-row numeric frame with fresh derived labels. -/
def c10wdf : DataFrame :=
  { nrows := 2, cols := [⟨"x", true, [PVal.num 1, PVal.num 2]⟩] }

/-- C10, witness: the amended theorem applied to the concrete frame for all
three operations. -/
theorem c10_frame_effects_witness :
    (∃ c, rank_data c10wdf "x" false "dense" none =
        Except.ok { c10wdf with cols := c10wdf.cols ++ [c] } ∧
      c.name = "x_rank" ∧ c.cells.length = c10wdf.nrows) ∧
    (∃ c, calculate_percentages c10wdf "x" none =
        Except.ok { c10wdf with cols := c10wdf.cols ++ [c] } ∧
      c.name = "x_pct" ∧ c.cells.length = c10wdf.nrows) ∧
    ∃ c, window_aggregate c10wdf "x" 2 "mean" 1 =
        Except.ok { c10wdf with cols := c10wdf.cols ++ [c] } ∧
      c.name = "x_rolling_mean_2" ∧ c.cells.length = c10wdf.nrows := by
  have h := c10_frame_effects c10wdf "x" (by decide) (by decide)
  exact ⟨h.1 false "dense" none (by decide) (Or.inl rfl) (by decide),
    h.2.1 none (Or.inl rfl) (by decide),
    h.2.2 2 1 "mean" (by norm_num) (by norm_num) (by decide) (by decide)⟩

/-! ## C7: constant-strategy fill leaves no missing cells and keeps values -/

/-- Name-preserving column rewritings commute with label lookup. -/
theorem find?_map_name_preserving (f : Col → Col)
    (hf : ∀ c, (f c).name = c.name) (m : String) :
    ∀ (cols : List Col),
      (cols.map f).find? (fun c => c.name = m) =
        (cols.find? (fun c => c.name = m)).map f := by
  intro cols
  induction cols with
  | nil => rfl
  | cons c rest ih =>
    by_cases hc : c.name = m
    · rw [List.map_cons, List.find?_cons_of_pos _ (by simp [hf, hc]),
        List.find?_cons_of_pos _ (by simp [hc])]
      rfl
    · rw [List.map_cons, List.find?_cons_of_neg _ (by simp [hf, hc]),
        List.find?_cons_of_neg _ (by simp [hc])]
      exact ih

/-- The rewriting behind `setColCells` keeps every label. -/
theorem setCol_name_preserving (n : String) (cs : List PVal) :
    ∀ c : Col, ((fun c => if c.name = n then { c with cells := cs } else c) c).name
      = c.name := by
  intro c
  by_cases hc : c.name = n <;> simp [hc]

theorem setColCells_hasCol (df : DataFrame) (n : String) (cs : List PVal)
    (m : String) : (df.setColCells n cs).hasCol m = df.hasCol m := by
  unfold DataFrame.setColCells DataFrame.hasCol
  rw [find?_map_name_preserving _ (setCol_name_preserving n cs) m]
  cases df.cols.find? (fun c => c.name = m) <;> rfl

theorem setColCells_colNames (df : DataFrame) (n : String) (cs : List PVal) :
    (df.setColCells n cs).colNames = df.colNames := by
  unfold DataFrame.setColCells DataFrame.colNames
  rw [List.map_map]
  apply List.map_congr_left
  intro c _
  exact setCol_name_preserving n cs c

theorem setColCells_colCells_ne (df : DataFrame) (n : String) (cs : List PVal)
    (m : String) (h : m ≠ n) :
    (df.setColCells n cs).colCells m = df.colCells m := by
  unfold DataFrame.setColCells DataFrame.colCells
  rw [find?_map_name_preserving _ (setCol_name_preserving n cs) m]
  cases hfind : df.cols.find? (fun c => c.name = m) with
  | none => rfl
  | some c =>
    have hname : c.name = m := by
      have := List.find?_some hfind
      simpa using this
    simp [hname, h]

theorem setColCells_colCells_eq (df : DataFrame) (n : String) (cs : List PVal)
    (h : df.hasCol n = true) :
    (df.setColCells n cs).colCells n = cs := by
  unfold DataFrame.setColCells DataFrame.colCells
  rw [find?_map_name_preserving _ (setCol_name_preserving n cs) n]
  unfold DataFrame.hasCol at h
  cases hfind : df.cols.find? (fun c => c.name = n) with
  | none => rw [hfind] at h; simp at h
  | some c =>
    have hname : c.name = n := by
      have := List.find?_some hfind
      simpa using this
    simp [hname]

/-- Filling with a non-missing value leaves no missing cell. -/
theorem countNA_fill (v : PVal) (hv : v.isNA = false) (cells : List PVal) :
    countNA (cells.map (fillCellWith v)) = 0 := by
  unfold countNA
  rw [List.countP_eq_zero]
  intro a ha
  obtain ⟨c, _, hc⟩ := List.mem_map.mp ha
  subst hc
  unfold fillCellWith
  by_cases h : c.isNA = true
  · simp [h, hv]
  · simp at h
    simp [h]

/-- Filling twice is filling once. -/
theorem fill_idem (v : PVal) (hv : v.isNA = false) (cells : List PVal) :
    (cells.map (fillCellWith v)).map (fillCellWith v) =
      cells.map (fillCellWith v) := by
  rw [List.map_map]
  apply List.map_congr_left
  intro c _
  show fillCellWith v (fillCellWith v c) = fillCellWith v c
  unfold fillCellWith
  by_cases h : c.isNA = true
  · simp [h, hv]
  · simp at h
    simp [h]

/-- One constant-strategy iteration: the frame keeps its shape, every column
is either untouched or NA-filled, and the processed column (when present)
ends with no missing cells. -/
theorem fillColumn_const (v : PVal) (hv : v.isNA = false) (df : DataFrame)
    (c : String) :
    ∃ df2, fillColumn "constant" (some v) df c = Except.ok df2 ∧
      df2.colNames = df.colNames ∧ df2.nrows = df.nrows ∧
      (∀ m, df2.hasCol m = df.hasCol m) ∧
      (∀ m, df2.colCells m = df.colCells m ∨
        df2.colCells m = (df.colCells m).map (fillCellWith v)) ∧
      (df.hasCol c = true → countNA (df2.colCells c) = 0) := by
  by_cases hc : df.hasCol c
  · by_cases hna : countNA (df.colCells c) = 0
    · refine ⟨df, ?_, rfl, rfl, fun _ => rfl, fun m => Or.inl rfl,
        fun _ => hna⟩
      simp [fillColumn, hc, hna]
    · refine ⟨df.setColCells c ((df.colCells c).map (fillCellWith v)), ?_,
        setColCells_colNames df c _, rfl,
        fun m => setColCells_hasCol df c _ m, ?_, ?_⟩
      · simp [fillColumn, hc, hna]
      · intro m
        by_cases hm : m = c
        · subst hm
          exact Or.inr (setColCells_colCells_eq df m _ hc)
        · exact Or.inl (setColCells_colCells_ne df c _ m hm)
      · intro _
        rw [setColCells_colCells_eq df c _ hc]
        exact countNA_fill v hv _
  · refine ⟨df, ?_, rfl, rfl, fun _ => rfl, fun m => Or.inl rfl, ?_⟩
    · simp [fillColumn, hc]
    · intro h; rw [h] at hc; simp at hc

/-- The constant-strategy loop: succeeds, keeps the frame's shape, touches
only NA cells, and leaves every present target column with no missing
cells. -/
theorem fillLoop_const (v : PVal) (hv : v.isNA = false) :
    ∀ (targets : List String) (df : DataFrame),
      ∃ r, fillLoop "constant" (some v) df targets = Except.ok r ∧
        r.colNames = df.colNames ∧ r.nrows = df.nrows ∧
        (∀ m, r.hasCol m = df.hasCol m) ∧
        (∀ m, r.colCells m = df.colCells m ∨
          r.colCells m = (df.colCells m).map (fillCellWith v)) ∧
        (∀ c ∈ targets, df.hasCol c = true → countNA (r.colCells c) = 0) := by
  intro targets
  induction targets with
  | nil =>
    intro df
    exact ⟨df, rfl, rfl, rfl, fun _ => rfl, fun m => Or.inl rfl, by simp⟩
  | cons c rest ih =>
    intro df
    obtain ⟨df2, h2, hn2, hr2, hh2, hrel2, hna2⟩ := fillColumn_const v hv df c
    obtain ⟨r, hr, hnr, hrr, hhr, hrelr, hnar⟩ := ih df2
    refine ⟨r, ?_, hnr.trans hn2, hrr.trans hr2,
      fun m => (hhr m).trans (hh2 m), ?_, ?_⟩
    · rw [fillLoop, h2]
      exact hr
    · intro m
      rcases hrelr m with h | h <;> rcases hrel2 m with h' | h'
      · exact Or.inl (h.trans h')
      · exact Or.inr (h.trans h')
      · rw [h, h']
        exact Or.inr rfl
      · rw [h, h']
        exact Or.inr (fill_idem v hv _)
    · intro x hx hhas
      rcases List.mem_cons.mp hx with hxc | hxr
      · subst hxc
        rcases hrelr x with h | h
        · rw [h]
          exact hna2 hhas
        · rw [h]
          exact countNA_fill v hv _
      · exact hnar x hxr ((hh2 x).symm ▸ hhas)

/-- Out-of-bound or NA-preserving cell access after a fill. -/
theorem getD_map_fill (v : PVal) (cells : List PVal) (i : Nat)
    (h : ((cells.getD i PVal.nan)).isNA = false) :
    (cells.map (fillCellWith v)).getD i PVal.nan = cells.getD i PVal.nan := by
  induction cells generalizing i with
  | nil => simp [PVal.isNA] at h
  | cons c cs ih =>
    cases i with
    | zero =>
      simp only [List.getD_cons_zero, List.map_cons] at *
      unfold fillCellWith
      simp [h]
    | succ j =>
      simp only [List.getD_cons_succ, List.map_cons] at *
      exact ih j h

/-- C7: `fill_missing_values(strategy="constant", value=v)` (for an actual,
non-missing fill value) never raises; afterwards every targeted column that
exists holds zero missing cells, and every cell that was not missing keeps
its value — across all columns, with names, order and row count
untouched. -/
theorem c7_fill_constant (df : DataFrame) (v : PVal)
    (columns : Option (List String)) (hv : v.isNA = false) :
    ∃ r, fill_missing_values df "constant" (some v) columns = Except.ok r ∧
      r.colNames = df.colNames ∧ r.nrows = df.nrows ∧
      (∀ c ∈ fillTargets columns df, df.hasCol c = true →
        countNA (r.colCells c) = 0) ∧
      (∀ m i, ((df.colCells m).getD i PVal.nan).isNA = false →
        (r.colCells m).getD i PVal.nan = (df.colCells m).getD i PVal.nan) := by
  obtain ⟨r, hr, hn, hrw, _, hrel, hna⟩ :=
    fillLoop_const v hv (fillTargets columns df) df
  refine ⟨r, hr, hn, hrw, hna, ?_⟩
  intro m i h
  rcases hrel m with hcase | hcase
  · rw [hcase]
  · rw [hcase]
    exact getD_map_fill v _ i h

/-- A column with one missing cell. -/
def c7df : DataFrame :=
  { nrows := 2, cols := [⟨"a", true, [PVal.num 1, PVal.nan]⟩] }

/-- C7, witness: the theorem applied to the concrete frame with fill value
0. -/
theorem c7_fill_constant_witness :
    ∃ r, fill_missing_values c7df "constant" (some (PVal.num 0)) none =
        Except.ok r ∧
      r.colNames = c7df.colNames ∧ r.nrows = c7df.nrows ∧
      (∀ c ∈ fillTargets none c7df, c7df.hasCol c = true →
        countNA (r.colCells c) = 0) ∧
      (∀ m i, ((c7df.colCells m).getD i PVal.nan).isNA = false →
        (r.colCells m).getD i PVal.nan = (c7df.colCells m).getD i PVal.nan) :=
  c7_fill_constant c7df (PVal.num 0) none (by decide)

/-! ## C5: idempotence of column-name standardization -/

theorem findRepl_eq_of_not_mem (c : Char) :
    ∀ (ps : List (Char × Char)), c ∉ ps.map Prod.fst → findRepl ps c = c := by
  intro ps
  induction ps with
  | nil => intro _; rfl
  | cons p rest ih =>
    intro h
    have hc : c ≠ p.1 := by
      intro hc
      exact h (by simp [hc])
    rw [findRepl, if_neg hc]
    exact ih (fun hm => h (by simp [hm]))

theorem findRepl_mem_snd (c : Char) :
    ∀ (ps : List (Char × Char)), c ∈ ps.map Prod.fst →
      ∃ p ∈ ps, findRepl ps c = p.2 := by
  intro ps
  induction ps with
  | nil => intro h; simp at h
  | cons p rest ih =>
    intro h
    by_cases hc : c = p.1
    · exact ⟨p, by simp, by rw [findRepl, if_pos hc]⟩
    · have hm : c ∈ rest.map Prod.fst := by
        rw [List.map_cons] at h
        rcases List.mem_cons.mp h with h1 | h1
        · exact absurd h1 hc
        · exact h1
      obtain ⟨q, hq, hfq⟩ := ih hm
      exact ⟨q, by simp [hq], by rw [findRepl, if_neg hc]; exact hfq⟩

theorem asciiLower_not_upper (c : Char) : isUpperAZ (asciiLower c) = false := by
  unfold asciiLower
  by_cases hc : c ∈ upperPairs.map Prod.fst
  · obtain ⟨p, hp, hfp⟩ := findRepl_mem_snd c upperPairs hc
    rw [hfp]
    have hlow : p.2 ∈ lowerChars := by
      unfold lowerChars
      exact List.mem_map_of_mem Prod.snd hp
    have hdisj : ∀ x ∈ lowerChars, x ∉ upperChars := by decide
    unfold isUpperAZ
    simpa using hdisj p.2 hlow
  · rw [findRepl_eq_of_not_mem c upperPairs hc]
    unfold isUpperAZ
    simpa [upperChars] using hc

theorem asciiLower_eq_of_not_upper (c : Char) (h : isUpperAZ c = false) :
    asciiLower c = c := by
  unfold asciiLower
  apply findRepl_eq_of_not_mem
  unfold isUpperAZ at h
  simpa [upperChars] using h

theorem asciiLower_not_sep (c : Char) (h : isSep c = false) :
    isSep (asciiLower c) = false := by
  unfold asciiLower
  by_cases hc : c ∈ upperPairs.map Prod.fst
  · obtain ⟨p, hp, hfp⟩ := findRepl_mem_snd c upperPairs hc
    rw [hfp]
    have hlow : p.2 ∈ lowerChars := by
      unfold lowerChars
      exact List.mem_map_of_mem Prod.snd hp
    have hdisj : ∀ x ∈ lowerChars, x ∉ sepChars := by decide
    unfold isSep
    simpa using hdisj p.2 hlow
  · rw [findRepl_eq_of_not_mem c upperPairs hc]
    exact h

/-- The separator-replacement output contains no separators. -/
theorem replaceSepsAux_no_sep :
    ∀ (l : List Char) (b : Bool), ∀ c ∈ replaceSepsAux b l, isSep c = false := by
  intro l
  induction l with
  | nil => intro b c hc; simp [replaceSepsAux] at hc
  | cons x rest ih =>
    intro b c hc
    by_cases hx : isSep x = true
    · rw [replaceSepsAux, if_pos hx] at hc
      cases b with
      | true => exact ih true c hc
      | false =>
        rcases List.mem_cons.mp hc with h1 | h1
        · subst h1; decide
        · exact ih true c h1
    · simp only [Bool.not_eq_true] at hx
      rw [replaceSepsAux, if_neg (by simp [hx])] at hc
      rcases List.mem_cons.mp hc with h1 | h1
      · subst h1; exact hx
      · exact ih false c h1

/-- Separator replacement is the identity on separator-free strings. -/
theorem replaceSepsAux_id :
    ∀ (l : List Char), (∀ c ∈ l, isSep c = false) → ∀ b,
      replaceSepsAux b l = l := by
  intro l
  induction l with
  | nil => intro _ b; rfl
  | cons x rest ih =>
    intro h b
    have hx : isSep x = false := h x (by simp)
    rw [replaceSepsAux, if_neg (by simp [hx])]
    rw [ih (fun c hc => h c (by simp [hc])) false]

/-- Underscore insertion only adds underscores. -/
theorem insertU_mem : ∀ (l : List Char), ∀ c ∈ insertU l, c ∈ l ∨ c = '_'
  | [] => by intro c hc; simp [insertU] at hc
  | [a] => by intro c hc; simp [insertU] at hc; simp [hc]
  | a :: b :: rest => by
    intro c hc
    rw [insertU] at hc
    by_cases h : (isLowerAZ a && isUpperAZ b) = true
    · rw [if_pos h] at hc
      rcases List.mem_cons.mp hc with h1 | h1
      · exact Or.inl (by simp [h1])
      rcases List.mem_cons.mp h1 with h2 | h2
      · exact Or.inr h2
      rcases List.mem_cons.mp h2 with h3 | h3
      · exact Or.inl (by simp [h3])
      · rcases insertU_mem rest c h3 with h4 | h4
        · exact Or.inl (by simp [h4])
        · exact Or.inr h4
    · rw [if_neg h] at hc
      rcases List.mem_cons.mp hc with h1 | h1
      · exact Or.inl (by simp [h1])
      · rcases insertU_mem (b :: rest) c h1 with h4 | h4
        · exact Or.inl (List.mem_cons_of_mem a h4)
        · exact Or.inr h4

/-- Underscore insertion is the identity when no upper-case letter occurs. -/
theorem insertU_id : ∀ (l : List Char), (∀ c ∈ l, isUpperAZ c = false) →
    insertU l = l := by
  intro l
  induction l with
  | nil => intro _; rfl
  | cons a tl ih =>
    intro h
    cases tl with
    | nil => rfl
    | cons b rest =>
      rw [insertU, if_neg (by simp [h b (by simp)])]
      rw [ih (fun c hc => h c (by simp [hc]))]

/-- Lower-casing leaves no upper-case letter. -/
theorem lowerize_no_upper (l : List Char) :
    ∀ c ∈ lowerize l, isUpperAZ c = false := by
  intro c hc
  obtain ⟨x, _, hx⟩ := List.mem_map.mp hc
  subst hx
  exact asciiLower_not_upper x

/-- Lower-casing is the identity without upper-case letters. -/
theorem lowerize_id (l : List Char) (h : ∀ c ∈ l, isUpperAZ c = false) :
    lowerize l = l := by
  unfold lowerize
  rw [show l.map asciiLower = l.map id from
    List.map_congr_left (fun c hc => asciiLower_eq_of_not_upper c (h c hc))]
  simp

/-- Lower-casing preserves separator-freeness. -/
theorem lowerize_no_sep (l : List Char) (h : ∀ c ∈ l, isSep c = false) :
    ∀ c ∈ lowerize l, isSep c = false := by
  intro c hc
  obtain ⟨x, hx, hxc⟩ := List.mem_map.mp hc
  subst hxc
  exact asciiLower_not_sep x (h x hx)

/-- Underscore collapsing emits only characters of its input. -/
theorem collapseAux_mem :
    ∀ (l : List Char) (b : Bool), ∀ c ∈ collapseAux b l, c ∈ l := by
  intro l
  induction l with
  | nil => intro b c hc; simp [collapseAux] at hc
  | cons x rest ih =>
    intro b c hc
    by_cases hx : x = '_'
    · rw [collapseAux, if_pos hx] at hc
      cases b with
      | true => exact List.mem_cons_of_mem x (ih true c hc)
      | false =>
        rcases List.mem_cons.mp hc with h1 | h1
        · subst h1; simp [hx]
        · exact List.mem_cons_of_mem x (ih true c h1)
    · rw [collapseAux, if_neg hx] at hc
      rcases List.mem_cons.mp hc with h1 | h1
      · simp [h1]
      · exact List.mem_cons_of_mem x (ih false c h1)

/-- Does the string start with an underscore? -/
def headIsU : List Char → Bool
  | c :: _ => c == '_'
  | [] => false

/-- No two adjacent underscores. -/
def noDouble : List Char → Bool
  | a :: b :: rest => !(a == '_' && b == '_') && noDouble (b :: rest)
  | _ => true

theorem noDouble_cons (x : Char) (xs : List Char) :
    noDouble (x :: xs) = (!(x == '_' && headIsU xs) && noDouble xs) := by
  cases xs with
  | nil => simp [noDouble, headIsU]
  | cons y ys => rfl

/-- After a replaced underscore the collapse output cannot start with
another. -/
theorem collapseAux_true_head :
    ∀ (l : List Char), headIsU (collapseAux true l) = false := by
  intro l
  induction l with
  | nil => rfl
  | cons x rest ih =>
    by_cases hx : x = '_'
    · rw [collapseAux, if_pos hx]
      exact ih
    · rw [collapseAux, if_neg hx]
      simpa [headIsU] using hx

/-- Collapsing leaves no double underscore. -/
theorem collapseAux_noDouble :
    ∀ (l : List Char) (b : Bool), noDouble (collapseAux b l) = true := by
  intro l
  induction l with
  | nil => intro b; rfl
  | cons x rest ih =>
    intro b
    by_cases hx : x = '_'
    · rw [collapseAux, if_pos hx]
      cases b with
      | true => exact ih true
      | false =>
        show noDouble ('_' :: collapseAux true rest) = true
        rw [noDouble_cons]
        simp [collapseAux_true_head rest, ih true]
    · rw [collapseAux, if_neg hx]
      rw [noDouble_cons]
      simp [hx, ih false]

/-- Collapsing is the identity on double-free strings (and on double-free
strings not starting with an underscore when a run is pending). -/
theorem collapseAux_id :
    ∀ (l : List Char), noDouble l = true →
      (collapseAux false l = l ∧
        (headIsU l = false → collapseAux true l = l)) := by
  intro l
  induction l with
  | nil => intro _; exact ⟨rfl, fun _ => rfl⟩
  | cons x rest ih =>
    intro h
    rw [noDouble_cons] at h
    simp only [Bool.and_eq_true, Bool.not_eq_true'] at h
    obtain ⟨hhd, hnd⟩ := h
    obtain ⟨ihf, iht⟩ := ih hnd
    constructor
    · by_cases hx : x = '_'
      · rw [collapseAux, if_pos hx]
        subst hx
        simp at hhd
        show ('_' :: collapseAux true rest : List Char) = _
        rw [iht hhd]
      · rw [collapseAux, if_neg hx]
        rw [ihf]
    · intro hh
      have hx : x ≠ '_' := by
        simpa [headIsU] using hh
      rw [collapseAux, if_neg hx, ihf]

/-- The head after dropping leading underscores is not an underscore. -/
theorem stripLead_head (l : List Char) : headIsU (stripLead l) = false := by
  induction l with
  | nil => rfl
  | cons x rest ih =>
    by_cases hx : x = '_'
    · rw [stripLead, List.dropWhile_cons]
      simp only [hx]
      simpa [stripLead] using ih
    · rw [stripLead, List.dropWhile_cons]
      simp only [beq_iff_eq, hx, if_false]
      simpa [headIsU] using hx

/-- Dropping leading underscores does nothing when there are none. -/
theorem stripLead_id (l : List Char) (h : headIsU l = false) :
    stripLead l = l := by
  cases l with
  | nil => rfl
  | cons x rest =>
    have hx : (x == '_') = false := by simpa [headIsU] using h
    rw [stripLead, List.dropWhile_cons, hx]
    simp

/-- `dropWhile` returns a tail of its input. -/
theorem dropWhile_tail {α : Type} (p : α → Bool) (l : List α) :
    ∃ t, t ++ l.dropWhile p = l := by
  induction l with
  | nil => exact ⟨[], rfl⟩
  | cons x rest ih =>
    by_cases hx : p x = true
    · obtain ⟨t, ht⟩ := ih
      rw [List.dropWhile_cons, if_pos hx]
      exact ⟨x :: t, by simpa using ht⟩
    · rw [List.dropWhile_cons, if_neg (by simp [hx])]
      exact ⟨[], rfl⟩

theorem headIsU_append (xs ys : List Char) :
    headIsU (xs ++ ys) = if xs = [] then headIsU ys else headIsU xs := by
  cases xs with
  | nil => simp
  | cons x t => simp [headIsU]

/-- Trailing-strip keeps the (non-underscore) head. -/
theorem stripTrail_head (l : List Char) (h : headIsU l = false) :
    headIsU (stripTrail l) = false := by
  obtain ⟨t, ht⟩ := dropWhile_tail (fun c => c == '_') l.reverse
  unfold stripTrail
  by_cases he : l.reverse.dropWhile (fun c => c == '_') = []
  · rw [he]; rfl
  · have hl : l = (l.reverse.dropWhile (fun c => c == '_')).reverse ++ t.reverse := by
      have := congrArg List.reverse ht
      simpa [List.reverse_append] using this.symm
    rw [hl, headIsU_append] at h
    simpa [he] using h

/-- Trailing-strip leaves no trailing underscore. -/
theorem stripTrail_last (l : List Char) :
    headIsU (stripTrail l).reverse = false := by
  unfold stripTrail
  rw [List.reverse_reverse]
  have := stripLead_head l.reverse
  simpa [stripLead] using this

/-- Trailing-strip does nothing without a trailing underscore. -/
theorem stripTrail_id (l : List Char) (h : headIsU l.reverse = false) :
    stripTrail l = l := by
  unfold stripTrail
  have := stripLead_id l.reverse h
  rw [show l.reverse.dropWhile (fun c => c == '_') = l.reverse from this]
  exact List.reverse_reverse l

/-- A double-free string stays double-free when a front part is removed. -/
theorem noDouble_append_right (t s : List Char)
    (h : noDouble (t ++ s) = true) : noDouble s = true := by
  induction t with
  | nil => exact h
  | cons a t' ih =>
    rw [List.cons_append, noDouble_cons] at h
    simp only [Bool.and_eq_true] at h
    exact ih h.2

/-- A double-free string stays double-free when a tail is removed. -/
theorem noDouble_append_left (t s : List Char)
    (h : noDouble (t ++ s) = true) : noDouble t = true := by
  induction t with
  | nil => rfl
  | cons a t' ih =>
    rw [List.cons_append, noDouble_cons] at h
    simp only [Bool.and_eq_true] at h
    rw [noDouble_cons]
    simp only [Bool.and_eq_true]
    refine ⟨?_, ih h.2⟩
    cases t' with
    | nil => simp [headIsU]
    | cons b t2 =>
      have := h.1
      simpa [headIsU] using this

/-- Removing leading underscores keeps membership. -/
theorem stripLead_mem (l : List Char) : ∀ c ∈ stripLead l, c ∈ l := by
  intro c hc
  obtain ⟨t, ht⟩ := dropWhile_tail (fun c => c == '_') l
  rw [← ht]
  simp only [List.mem_append]
  exact Or.inr hc

/-- Removing trailing underscores keeps membership. -/
theorem stripTrail_mem (l : List Char) : ∀ c ∈ stripTrail l, c ∈ l := by
  intro c hc
  unfold stripTrail at hc
  rw [List.mem_reverse] at hc
  have := stripLead_mem l.reverse c (by simpa [stripLead] using hc)
  simpa using this

theorem stripLead_noDouble (l : List Char) (h : noDouble l = true) :
    noDouble (stripLead l) = true := by
  obtain ⟨t, ht⟩ := dropWhile_tail (fun c => c == '_') l
  apply noDouble_append_right t
  unfold stripLead
  rw [ht]
  exact h

theorem stripTrail_noDouble (l : List Char) (h : noDouble l = true) :
    noDouble (stripTrail l) = true := by
  obtain ⟨t, ht⟩ := dropWhile_tail (fun c => c == '_') l.reverse
  have hl : l = stripTrail l ++ t.reverse := by
    unfold stripTrail
    have := congrArg List.reverse ht
    simpa [List.reverse_append] using this.symm
  exact noDouble_append_left _ _ (by rw [← hl]; exact h)

/-- The normal form `to_snake_case` produces: the output of one application
has no separators, no upper-case letters, no double underscore, and no
leading or trailing underscore. -/
theorem toSnakeCase_output_facts (l : List Char) :
    (∀ c ∈ stripTrail (stripLead (collapseU (lowerize (insertU (replaceSeps l))))),
      isSep c = false) ∧
    (∀ c ∈ stripTrail (stripLead (collapseU (lowerize (insertU (replaceSeps l))))),
      isUpperAZ c = false) ∧
    noDouble (stripTrail (stripLead (collapseU (lowerize (insertU (replaceSeps l)))))) = true ∧
    headIsU (stripTrail (stripLead (collapseU (lowerize (insertU (replaceSeps l)))))) = false ∧
    headIsU (stripTrail (stripLead (collapseU (lowerize (insertU (replaceSeps l)))))).reverse = false := by
  have hsep1 : ∀ c ∈ replaceSeps l, isSep c = false :=
    fun c hc => replaceSepsAux_no_sep l false c hc
  have hsep2 : ∀ c ∈ insertU (replaceSeps l), isSep c = false := by
    intro c hc
    rcases insertU_mem (replaceSeps l) c hc with h | h
    · exact hsep1 c h
    · subst h; decide
  have hsep3 : ∀ c ∈ lowerize (insertU (replaceSeps l)), isSep c = false :=
    lowerize_no_sep _ hsep2
  have hup3 : ∀ c ∈ lowerize (insertU (replaceSeps l)), isUpperAZ c = false :=
    lowerize_no_upper _
  have hsep4 : ∀ c ∈ collapseU (lowerize (insertU (replaceSeps l))), isSep c = false :=
    fun c hc => hsep3 c (collapseAux_mem _ false c hc)
  have hup4 : ∀ c ∈ collapseU (lowerize (insertU (replaceSeps l))), isUpperAZ c = false :=
    fun c hc => hup3 c (collapseAux_mem _ false c hc)
  have hnd4 : noDouble (collapseU (lowerize (insertU (replaceSeps l)))) = true :=
    collapseAux_noDouble _ false
  refine ⟨?_, ?_, ?_, ?_, ?_⟩
  · intro c hc
    exact hsep4 c (stripLead_mem _ c (stripTrail_mem _ c hc))
  · intro c hc
    exact hup4 c (stripLead_mem _ c (stripTrail_mem _ c hc))
  · exact stripTrail_noDouble _ (stripLead_noDouble _ hnd4)
  · exact stripTrail_head _ (stripLead_head _)
  · exact stripTrail_last _

/-- C5's core: `to_snake_case` is idempotent on every string. -/
theorem toSnakeCase_idem (s : String) :
    toSnakeCase (toSnakeCase s) = toSnakeCase s := by
  unfold toSnakeCase
  obtain ⟨hsep, hup, hnd, hhd, hlast⟩ := toSnakeCase_output_facts s.data
  have hdata : (String.mk (stripTrail (stripLead (collapseU (lowerize
      (insertU (replaceSeps s.data))))))).data =
      stripTrail (stripLead (collapseU (lowerize (insertU (replaceSeps s.data))))) := rfl
  rw [hdata]
  rw [show replaceSeps (stripTrail (stripLead (collapseU (lowerize
      (insertU (replaceSeps s.data)))))) = stripTrail (stripLead (collapseU
      (lowerize (insertU (replaceSeps s.data))))) from
    replaceSepsAux_id _ hsep false]
  rw [insertU_id _ hup]
  rw [lowerize_id _ hup]
  rw [show collapseU (stripTrail (stripLead (collapseU (lowerize
      (insertU (replaceSeps s.data)))))) = stripTrail (stripLead (collapseU
      (lowerize (insertU (replaceSeps s.data))))) from
    (collapseAux_id _ hnd).1]
  rw [stripLead_id _ hhd]
  rw [stripTrail_id _ hlast]

/-- C5: standardizing column names twice yields the same Dataset as
standardizing once. -/
theorem c5_standardize_idempotent (df : DataFrame) :
    standardize_column_names (standardize_column_names df) =
      standardize_column_names df := by
  unfold standardize_column_names
  simp only [List.map_map]
  congr 1
  apply List.map_congr_left
  intro c _
  show ({ c with name := toSnakeCase (toSnakeCase c.name) } : Col) = _
  rw [toSnakeCase_idem]

end ETL
